import Mathlib

/-!
Verification of the chess engine (`engine/`, `search/`, `api/` modules):
a shallow embedding of the board data model, move application and undo,
legal-move generation, game-state result detection, minimax search and
the session move interface, together with theorems checking the stated
properties of these components.

Conventions of the embedding:
* Python lists indexed by square become functions `Int → Option Piece`;
  Python's `//` and `%` (floor division with positive modulus) become
  `Int.ediv` / `Int.emod`, which agree with Python on all integers.
* The mutable `Board` becomes a structure threaded through functions;
  the in-place make/test/undo loops become folds that thread the board.
* Python exceptions in fallible decoding code become `Option` results.
* The Zobrist hash table is seeded from Python's `random` module
  (outside the sources), so the hash is a parameter `Board → Nat` of
  the game-state operations; no claim depends on its concrete values.
-/

namespace Chess

/-- `engine/constants.py`: `Color`. -/
inductive Color where
  | white
  | black
deriving DecidableEq, Repr

/-- `engine/constants.py`: `PieceType`. -/
inductive PieceType where
  | pawn
  | knight
  | bishop
  | rook
  | queen
  | king
deriving DecidableEq, Repr

/-- `engine/board.py`: `Piece = tuple[Color, PieceType]`. -/
abbrev Piece := Color × PieceType

/-- Opponent of a color (the `Color.BLACK if color == Color.WHITE else Color.WHITE` idiom). -/
def Color.opp : Color → Color
  | .white => .black
  | .black => .white

/-- `engine/constants.py`: `sq(row, col) = row * 8 + col`. -/
def sqOf (row col : Int) : Int := row * 8 + col

/-- Row of a square, Python `square // 8` (floor division). -/
def rowOf (s : Int) : Int := Int.ediv s 8

/-- Column of a square, Python `square % 8`. -/
def colOf (s : Int) : Int := Int.emod s 8

/-- `engine/move.py`: the `Move` dataclass. -/
structure Move where
  fromSq : Int
  toSq : Int
  promotion : Option PieceType := none
  isCastle : Bool := false
  isEnPassant : Bool := false
deriving DecidableEq, Repr

/-- `Move.__eq__`: equality used by the game's legality lookups compares
only `(from_square, to_square, promotion)`; the flags are ignored. -/
def moveEq (a b : Move) : Bool :=
  a.fromSq == b.fromSq && a.toSq == b.toSq && a.promotion == b.promotion

/-- `engine/board.py`: castling-rights dict with keys `K`, `Q`, `k`, `q`. -/
structure CastlingRights where
  wk : Bool
  wq : Bool
  bk : Bool
  bq : Bool
deriving DecidableEq, Repr

/-- One entry of `Board._history`: the undo dict pushed by `make_move`. -/
structure UndoRec where
  move : Move
  captured : Option Piece
  epCaptured : Option (Int × Option Piece)
  castlingRights : CastlingRights
  epSquare : Option Int
  halfmoveClock : Int
  fullmoveNumber : Int

/-- `engine/board.py`: the `Board` state.  `squares` is the 64-cell array
as a function on square indices. -/
structure Board where
  squares : Int → Option Piece
  turn : Color
  castling : CastlingRights
  epSquare : Option Int
  halfmoveClock : Int
  fullmoveNumber : Int
  history : List UndoRec

/-- `_rook_castling_update`: clear the right of the corner a rook moved
from or was captured on. -/
def rookCastlingUpdate (rights : CastlingRights) (square : Int) : CastlingRights :=
  if square = sqOf 7 7 then { rights with wk := false }
  else if square = sqOf 7 0 then { rights with wq := false }
  else if square = sqOf 0 7 then { rights with bk := false }
  else if square = sqOf 0 0 then { rights with bq := false }
  else rights

/-- Python truthiness of `move.promotion` (used by `undo_move`):
`None` and `PieceType.PAWN` (enum value 0) are falsy. -/
def promoTruthy : Option PieceType → Bool
  | none => false
  | some pt => pt ≠ PieceType.pawn

/-- The en-passant victim square computed inside `make_move`:
`(to_sq // 8 + (1 if color == WHITE else -1)) * 8 + to_sq % 8`. -/
def epCapSqOf (color : Color) (toSq : Int) : Int :=
  (rowOf toSq + (if color = Color.white then 1 else -1)) * 8 + colOf toSq

/-- `Board.make_move`.  The source asserts that a piece stands on the
from-square; outside that domain this embedding returns the board
unchanged. -/
def makeMove (b : Board) (m : Move) : Board :=
  match b.squares m.fromSq with
  | none => b
  | some piece =>
    let color := piece.1
    let pieceType := piece.2
    let captured := b.squares m.toSq
    -- En passant capture: remove the captured pawn
    let epCapSq := epCapSqOf color m.toSq
    let epCaptured : Option (Int × Option Piece) :=
      if m.isEnPassant then some (epCapSq, b.squares epCapSq) else none
    let undo : UndoRec :=
      { move := m, captured := captured, epCaptured := epCaptured,
        castlingRights := b.castling, epSquare := b.epSquare,
        halfmoveClock := b.halfmoveClock, fullmoveNumber := b.fullmoveNumber }
    let s1 := if m.isEnPassant then Function.update b.squares epCapSq none else b.squares
    -- Move the piece
    let s2 := Function.update (Function.update s1 m.toSq (some piece)) m.fromSq none
    -- Promotion
    let s3 :=
      match m.promotion with
      | some promo => Function.update s2 m.toSq (some (color, promo))
      | none => s2
    -- Castling: also move the rook
    let s4 :=
      if m.isCastle then
        if m.toSq = sqOf 7 6 then
          Function.update (Function.update s3 (sqOf 7 5) (s3 (sqOf 7 7))) (sqOf 7 7) none
        else if m.toSq = sqOf 7 2 then
          Function.update (Function.update s3 (sqOf 7 3) (s3 (sqOf 7 0))) (sqOf 7 0) none
        else if m.toSq = sqOf 0 6 then
          Function.update (Function.update s3 (sqOf 0 5) (s3 (sqOf 0 7))) (sqOf 0 7) none
        else if m.toSq = sqOf 0 2 then
          Function.update (Function.update s3 (sqOf 0 3) (s3 (sqOf 0 0))) (sqOf 0 0) none
        else s3
      else s3
    -- Update en passant square
    let ep' : Option Int :=
      if pieceType = PieceType.pawn ∧ (rowOf m.toSq - rowOf m.fromSq).natAbs = 2 then
        some ((Int.ediv (rowOf m.fromSq + rowOf m.toSq) 2) * 8 + colOf m.fromSq)
      else none
    -- Update castling rights
    let cr1 :=
      if pieceType = PieceType.king then
        if color = Color.white then { b.castling with wk := false, wq := false }
        else { b.castling with bk := false, bq := false }
      else b.castling
    let cr2 :=
      if pieceType = PieceType.rook then rookCastlingUpdate cr1 m.fromSq else cr1
    let cr3 :=
      if captured.isSome then rookCastlingUpdate cr2 m.toSq else cr2
    -- Halfmove clock
    let hc' :=
      if pieceType = PieceType.pawn ∨ captured.isSome ∨ m.isEnPassant then 0
      else b.halfmoveClock + 1
    -- Fullmove number
    let fm' := if color = Color.black then b.fullmoveNumber + 1 else b.fullmoveNumber
    { squares := s4,
      turn := color.opp,
      castling := cr3,
      epSquare := ep',
      halfmoveClock := hc',
      fullmoveNumber := fm',
      history := undo :: b.history }

/-- `Board.undo_move`: pop the last undo record and restore.  No-op on
empty history, as in the source. -/
def undoMove (b : Board) : Board :=
  match b.history with
  | [] => b
  | undo :: rest =>
    let m := undo.move
    -- Switch turn back; the restored side to move
    let color := b.turn.opp
    -- Restore the moving piece (un-promote if needed)
    let pieceAtDest := b.squares m.toSq
    let movingPiece : Option Piece :=
      if promoTruthy m.promotion then some (color, PieceType.pawn) else pieceAtDest
    let t1 := Function.update (Function.update b.squares m.fromSq movingPiece) m.toSq undo.captured
    -- Restore en-passant captured pawn
    let t2 :=
      match undo.epCaptured with
      | some (epSq, epPiece) => if m.isEnPassant then Function.update t1 epSq epPiece else t1
      | none => t1
    -- Restore rook if castling
    let t3 :=
      if m.isCastle then
        if m.toSq = sqOf 7 6 then
          Function.update (Function.update t2 (sqOf 7 7) (t2 (sqOf 7 5))) (sqOf 7 5) none
        else if m.toSq = sqOf 7 2 then
          Function.update (Function.update t2 (sqOf 7 0) (t2 (sqOf 7 3))) (sqOf 7 3) none
        else if m.toSq = sqOf 0 6 then
          Function.update (Function.update t2 (sqOf 0 7) (t2 (sqOf 0 5))) (sqOf 0 5) none
        else if m.toSq = sqOf 0 2 then
          Function.update (Function.update t2 (sqOf 0 0) (t2 (sqOf 0 3))) (sqOf 0 3) none
        else t2
      else t2
    { squares := t3,
      turn := color,
      castling := undo.castlingRights,
      epSquare := undo.epSquare,
      halfmoveClock := undo.halfmoveClock,
      fullmoveNumber := undo.fullmoveNumber,
      history := rest }

/-- `Board.find_king`: linear scan over squares 0–63. -/
def findKing (b : Board) (color : Color) : Option Int :=
  (List.range 64).findSome? fun s =>
    match b.squares (s : Int) with
    | some p => if p.1 = color ∧ p.2 = PieceType.king then some (s : Int) else none
    | none => none

/-! ### Move generation (`engine/move_generator.py`) -/

/-- `_DIAG`. -/
def diagDirs : List (Int × Int) := [(1, 1), (1, -1), (-1, 1), (-1, -1)]

/-- `_ORTH`. -/
def orthDirs : List (Int × Int) := [(1, 0), (-1, 0), (0, 1), (0, -1)]

/-- `_KNIGHT_DELTAS`. -/
def knightDeltas : List (Int × Int) :=
  [(-2, -1), (-2, 1), (-1, -2), (-1, 2), (1, -2), (1, 2), (2, -1), (2, 1)]

/-- `_KING_DELTAS`. -/
def kingDeltas : List (Int × Int) :=
  [(-1, -1), (-1, 0), (-1, 1), (0, -1), (0, 1), (1, -1), (1, 0), (1, 1)]

/-- The promotion choices generated for a qualifying pawn move, in source order. -/
def promoPieces : List PieceType :=
  [PieceType.queen, PieceType.rook, PieceType.bishop, PieceType.knight]

/-- One iteration of the capture loop (`for dc in (-1, 1)`) of
`_pawn_moves`: a diagonal capture, promoting on the last rank, or an
en-passant capture when the target square equals the board's en-passant
square. -/
def pawnCaptureMoves (b : Board) (s : Int) (color : Color) (nr promoRow dc : Int) : List Move :=
  let col := colOf s
  let nc := col + dc
  if 0 ≤ nc ∧ nc ≤ 7 then
    let capSq := sqOf nr nc
    let epCase : List Move :=
      if b.epSquare = some capSq then
        [{ fromSq := s, toSq := capSq, isEnPassant := true }]
      else []
    match b.squares capSq with
    | some target =>
      if target.1 ≠ color then
        if nr = promoRow then
          promoPieces.map fun pt => { fromSq := s, toSq := capSq, promotion := some pt }
        else [{ fromSq := s, toSq := capSq }]
      else epCase
    | none => epCase
  else []

/-- `_pawn_moves`. -/
def pawnMoves (b : Board) (s : Int) (color : Color) : List Move :=
  let row := rowOf s
  let col := colOf s
  let direction : Int := if color = Color.white then -1 else 1
  let startRow : Int := if color = Color.white then 6 else 1
  let promoRow : Int := if color = Color.white then 0 else 7
  let nr := row + direction
  if 0 ≤ nr ∧ nr ≤ 7 then
    let pushes :=
      let fwd := sqOf nr col
      if b.squares fwd = none then
        if nr = promoRow then
          promoPieces.map fun pt => { fromSq := s, toSq := fwd, promotion := some pt }
        else
          ({ fromSq := s, toSq := fwd } : Move) ::
            (if row = startRow then
              let dbl := sqOf (row + 2 * direction) col
              if b.squares dbl = none then [({ fromSq := s, toSq := dbl } : Move)] else []
            else [])
      else []
    pushes ++ pawnCaptureMoves b s color nr promoRow (-1) ++
      pawnCaptureMoves b s color nr promoRow 1
  else []

/-- Shared body of `_knight_moves` and `_king_moves`: fixed-offset targets
onto empty-or-enemy squares. -/
def offsetMoves (b : Board) (s : Int) (color : Color) (deltas : List (Int × Int)) : List Move :=
  let row := rowOf s
  let col := colOf s
  deltas.filterMap fun d =>
    let nr := row + d.1
    let nc := col + d.2
    if 0 ≤ nr ∧ nr ≤ 7 ∧ 0 ≤ nc ∧ nc ≤ 7 then
      let ts := sqOf nr nc
      match b.squares ts with
      | none => some { fromSq := s, toSq := ts }
      | some t => if t.1 ≠ color then some { fromSq := s, toSq := ts } else none
    else none

/-- One direction of `_sliding`: walk from `(r, c)` in direction `(dr, dc)`
until blocked.  The fuel bounds the walk; 8 steps always suffice from an
on-board origin. -/
def slideRay (b : Board) (color : Color) (s : Int) (dr dc : Int) :
    Int → Int → Nat → List Move
  | _, _, 0 => []
  | r, c, fuel + 1 =>
    if 0 ≤ r ∧ r ≤ 7 ∧ 0 ≤ c ∧ c ≤ 7 then
      let ts := sqOf r c
      match b.squares ts with
      | none => ({ fromSq := s, toSq := ts } : Move) ::
          slideRay b color s dr dc (r + dr) (c + dc) fuel
      | some t => if t.1 ≠ color then [{ fromSq := s, toSq := ts }] else []
    else []

/-- `_sliding`. -/
def slidingMoves (b : Board) (s : Int) (color : Color) (dirs : List (Int × Int)) : List Move :=
  dirs.flatMap fun d => slideRay b color s d.1 d.2 (rowOf s + d.1) (colOf s + d.2) 8

/-- `_pseudo_legal`: per occupied square of `color`, dispatch by piece type. -/
def pseudoLegal (b : Board) (color : Color) : List Move :=
  (List.range 64).flatMap fun sn =>
    let s : Int := sn
    match b.squares s with
    | none => []
    | some piece =>
      if piece.1 ≠ color then []
      else
        match piece.2 with
        | .pawn => pawnMoves b s color
        | .knight => offsetMoves b s color knightDeltas
        | .bishop => slidingMoves b s color diagDirs
        | .rook => slidingMoves b s color orthDirs
        | .queen => slidingMoves b s color (diagDirs ++ orthDirs)
        | .king => offsetMoves b s color kingDeltas

/-- One ray of `_is_attacked`: walk until the first occupant and test it. -/
def rayAttacked (b : Board) (byColor : Color) (pts : List PieceType) (dr dc : Int) :
    Int → Int → Nat → Bool
  | _, _, 0 => false
  | r, c, fuel + 1 =>
    if 0 ≤ r ∧ r ≤ 7 ∧ 0 ≤ c ∧ c ≤ 7 then
      match b.squares (sqOf r c) with
      | some p => decide (p.1 = byColor ∧ p.2 ∈ pts)
      | none => rayAttacked b byColor pts dr dc (r + dr) (c + dc) fuel
    else false

/-- `_is_attacked`: reverse-pattern attack test. -/
def isAttacked (b : Board) (square : Int) (byColor : Color) : Bool :=
  let row := rowOf square
  let col := colOf square
  -- Pawn attacks: pawns of by_color attack *from* the row in front of them
  let pawnFromRow := row + (if byColor = Color.white then 1 else -1)
  let pawnHit :=
    decide (0 ≤ pawnFromRow ∧ pawnFromRow ≤ 7) &&
      ([-1, 1] : List Int).any fun dc =>
        let pc := col + dc
        decide (0 ≤ pc ∧ pc ≤ 7) &&
          b.squares (sqOf pawnFromRow pc) == some (byColor, PieceType.pawn)
  -- Knight attacks
  let knightHit := knightDeltas.any fun d =>
    let nr := row + d.1
    let nc := col + d.2
    decide (0 ≤ nr ∧ nr ≤ 7 ∧ 0 ≤ nc ∧ nc ≤ 7) &&
      b.squares (sqOf nr nc) == some (byColor, PieceType.knight)
  -- Sliders
  let orthHit := orthDirs.any fun d =>
    rayAttacked b byColor [PieceType.rook, PieceType.queen] d.1 d.2 (row + d.1) (col + d.2) 8
  let diagHit := diagDirs.any fun d =>
    rayAttacked b byColor [PieceType.bishop, PieceType.queen] d.1 d.2 (row + d.1) (col + d.2) 8
  -- King attacks
  let kingHit := kingDeltas.any fun d =>
    let nr := row + d.1
    let nc := col + d.2
    decide (0 ≤ nr ∧ nr ≤ 7 ∧ 0 ≤ nc ∧ nc ≤ 7) &&
      b.squares (sqOf nr nc) == some (byColor, PieceType.king)
  pawnHit || knightHit || orthHit || diagHit || kingHit

/-- `is_in_check`: false if the king is absent, as in the source. -/
def isInCheck (b : Board) (color : Color) : Bool :=
  match findKing b color with
  | none => false
  | some k => isAttacked b k color.opp

/-- `_castling_moves`. -/
def castlingMoves (b : Board) (color : Color) : List Move :=
  let opponent := color.opp
  match color with
  | .white =>
    let kingSq := sqOf 7 4
    if b.squares kingSq = some (Color.white, PieceType.king) then
      (if b.castling.wk = true
          ∧ b.squares (sqOf 7 7) = some (Color.white, PieceType.rook)
          ∧ b.squares (sqOf 7 5) = none
          ∧ b.squares (sqOf 7 6) = none
          ∧ isAttacked b (sqOf 7 4) opponent = false
          ∧ isAttacked b (sqOf 7 5) opponent = false
          ∧ isAttacked b (sqOf 7 6) opponent = false then
        [{ fromSq := kingSq, toSq := sqOf 7 6, isCastle := true }]
      else []) ++
      (if b.castling.wq = true
          ∧ b.squares (sqOf 7 0) = some (Color.white, PieceType.rook)
          ∧ b.squares (sqOf 7 3) = none
          ∧ b.squares (sqOf 7 2) = none
          ∧ b.squares (sqOf 7 1) = none
          ∧ isAttacked b (sqOf 7 4) opponent = false
          ∧ isAttacked b (sqOf 7 3) opponent = false
          ∧ isAttacked b (sqOf 7 2) opponent = false then
        [{ fromSq := kingSq, toSq := sqOf 7 2, isCastle := true }]
      else [])
    else []
  | .black =>
    let kingSq := sqOf 0 4
    if b.squares kingSq = some (Color.black, PieceType.king) then
      (if b.castling.bk = true
          ∧ b.squares (sqOf 0 7) = some (Color.black, PieceType.rook)
          ∧ b.squares (sqOf 0 5) = none
          ∧ b.squares (sqOf 0 6) = none
          ∧ isAttacked b (sqOf 0 4) opponent = false
          ∧ isAttacked b (sqOf 0 5) opponent = false
          ∧ isAttacked b (sqOf 0 6) opponent = false then
        [{ fromSq := kingSq, toSq := sqOf 0 6, isCastle := true }]
      else []) ++
      (if b.castling.bq = true
          ∧ b.squares (sqOf 0 0) = some (Color.black, PieceType.rook)
          ∧ b.squares (sqOf 0 3) = none
          ∧ b.squares (sqOf 0 2) = none
          ∧ b.squares (sqOf 0 1) = none
          ∧ isAttacked b (sqOf 0 4) opponent = false
          ∧ isAttacked b (sqOf 0 3) opponent = false
          ∧ isAttacked b (sqOf 0 2) opponent = false then
        [{ fromSq := kingSq, toSq := sqOf 0 2, isCastle := true }]
      else [])
    else []

/-- The filter test of `generate_legal_moves`: after the candidate move was
applied, is the mover's king safe?  The source passes `find_king`'s result
straight into `_is_attacked` (a fault when the king is absent); an absent
king is treated here as safe, matching the defensive policy of
`is_in_check`. -/
def kingSafeAfter (b1 : Board) (color : Color) : Bool :=
  match findKing b1 color with
  | some k => !(isAttacked b1 k color.opp)
  | none => true

/-- The make/test/undo loop of `generate_legal_moves`, threading the
mutated board through the iterations. -/
def legalFilter (color : Color) : Board → List Move → List Move
  | _, [] => []
  | b, m :: rest =>
    let b1 := makeMove b m
    let keep := kingSafeAfter b1 color
    let b2 := undoMove b1
    if keep then m :: legalFilter color b2 rest else legalFilter color b2 rest

/-- `generate_legal_moves`. -/
def generateLegalMoves (b : Board) : List Move :=
  let color := b.turn
  legalFilter color b (pseudoLegal b color ++ castlingMoves b color)

/-! ### The standard starting position (`Board.setup_start_position`) -/

/-- `_BACK_RANK`. -/
def backRank : List PieceType :=
  [PieceType.rook, PieceType.knight, PieceType.bishop, PieceType.queen,
   PieceType.king, PieceType.bishop, PieceType.knight, PieceType.rook]

/-- The board produced by `setup_start_position`. -/
def startBoard : Board :=
  { squares := fun s =>
      let r := rowOf s
      let c := colOf s
      if r = 0 then some (Color.black, backRank.getD c.toNat PieceType.king)
      else if r = 1 then some (Color.black, PieceType.pawn)
      else if r = 6 then some (Color.white, PieceType.pawn)
      else if r = 7 then some (Color.white, backRank.getD c.toNat PieceType.king)
      else none,
    turn := Color.white,
    castling := ⟨true, true, true, true⟩,
    epSquare := none,
    halfmoveClock := 0,
    fullmoveNumber := 1,
    history := [] }

/-! ### Coordinate text codec (`engine/move.py`, `engine/constants.py`)

Python exceptions (IndexError on a missing character, ValueError from
`int()` on a non-digit) are modelled as `none`; a `some` result is a
value the Python code returns normally. -/

/-- Start codepoints of the contiguous blocks of decimal digits
(Unicode category Nd, database version 14.0 as shipped with
CPython 3.11): the ten codepoints from each start are the digits 0–9 of
one script.  These are exactly the single characters `int()` parses. -/
def decDigitStarts : List Nat :=
  [0x30, 0x660, 0x6F0, 0x7C0, 0x966, 0x9E6, 0xA66, 0xAE6, 0xB66, 0xBE6,
   0xC66, 0xCE6, 0xD66, 0xDE6, 0xE50, 0xED0, 0xF20, 0x1040, 0x1090, 0x17E0,
   0x1810, 0x1946, 0x19D0, 0x1A80, 0x1A90, 0x1B50, 0x1BB0, 0x1C40, 0x1C50, 0xA620,
   0xA8D0, 0xA900, 0xA9D0, 0xA9F0, 0xAA50, 0xABF0, 0xFF10, 0x104A0, 0x10D30, 0x11066,
   0x110F0, 0x11136, 0x111D0, 0x112F0, 0x11450, 0x114D0, 0x11650, 0x116C0, 0x11730, 0x118E0,
   0x11950, 0x11C50, 0x11D50, 0x11DA0, 0x16A60, 0x16AC0, 0x16B50, 0x1D7CE, 0x1D7D8, 0x1D7E2,
   0x1D7EC, 0x1D7F6, 0x1E140, 0x1E2F0, 0x1E950, 0x1FBF0]

/-- Python `int(ch)` for a single character: every Unicode decimal digit
(category Nd, from any script — e.g. `int('٣') = 3`) parses to its
decimal value; every other character raises `ValueError`. -/
def digitVal (ch : Char) : Option Int :=
  decDigitStarts.findSome? fun s =>
    if s ≤ ch.toNat ∧ ch.toNat < s + 10 then some ((ch.toNat : Int) - (s : Int)) else none

/-- `square_from_name`: `col = ord(name[0]) - ord('a'); row = 8 - int(name[1])`.
No range validation is performed by the source: any character is accepted
for the file, and any digit for the rank. -/
def squareFromName (name : String) : Option Int :=
  match name.data with
  | c0 :: c1 :: _ =>
    (digitVal c1).map fun d => sqOf (8 - d) ((c0.toNat : Int) - 97)
  | _ => none

/-- `_LETTER_PROMO.get`. -/
def letterPromo (ch : Char) : Option PieceType :=
  if ch = 'q' then some PieceType.queen
  else if ch = 'r' then some PieceType.rook
  else if ch = 'b' then some PieceType.bishop
  else if ch = 'n' then some PieceType.knight
  else none

/-- `Move.from_uci`: decodes `uci[:2]`, `uci[2:4]` and, only when the
length is exactly 5, looks up `uci[4]` as a promotion letter. -/
def fromUci (uci : String) : Option Move :=
  let chars := uci.data
  match squareFromName (String.mk (chars.take 2)) with
  | none => none
  | some f =>
    match squareFromName (String.mk ((chars.drop 2).take 2)) with
    | none => none
    | some t =>
      let promo :=
        if chars.length = 5 then
          match chars.drop 4 with
          | c :: _ => letterPromo c
          | [] => none
        else none
      some { fromSq := f, toSq := t, promotion := promo }

/-! ### Game state (`engine/game.py`) -/

/-- `GameResult`. -/
inductive GameResult where
  | ongoing
  | whiteWins
  | blackWins
  | draw
deriving DecidableEq, Repr

/-- `DrawReason`. -/
inductive DrawReason where
  | stalemate
  | fiftyMove
  | threefold
  | insufficient
deriving DecidableEq, Repr

/-- `GameState`: board + position counts + history + cached legal moves +
result.  `positionCounts` is the hash→count dict as a total function
(missing keys read 0, as `dict.get(h, 0)` does). -/
structure GameState where
  board : Board
  positionCounts : Nat → Nat
  moveHistory : List Move
  cachedLegal : Option (List Move)
  result : GameResult
  drawReason : Option DrawReason
  resignation : Option Color

/-- The `legal_moves` property: returns the cached list, computing and
caching it when absent.  The returned state carries the (possibly newly
populated) cache. -/
def gsLegalMoves (s : GameState) : List Move × GameState :=
  match s.cachedLegal with
  | some l => (l, s)
  | none =>
    let l := generateLegalMoves s.board
    (l, { s with cachedLegal := some l })

/-- `GameState._record_position`: increment the count of the current
position's hash. -/
def recordPosition (hash : Board → Nat) (s : GameState) : GameState :=
  let h := hash s.board
  { s with positionCounts := Function.update s.positionCounts h (s.positionCounts h + 1) }

/-- The piece list `[(s, c, pt) for s in range(64) if ...]` built by
`_is_insufficient_material`. -/
def boardPieces (b : Board) : List (Int × Color × PieceType) :=
  (List.range 64).filterMap fun sn =>
    let s : Int := sn
    (b.squares s).map fun p => (s, p.1, p.2)

/-- The square-color parity `(s // 8 + s % 8) % 2`. -/
def sqShade (s : Int) : Int := Int.emod (rowOf s + colOf s) 2

/-- `GameState._is_insufficient_material`. -/
def isInsufficientMaterial (b : Board) : Bool :=
  let pieces := boardPieces b
  if pieces.length = 2 then true
  else if pieces.length = 3 then
    pieces.any fun p => decide (p.2.2 = PieceType.bishop ∨ p.2.2 = PieceType.knight)
  else if pieces.length = 4 then
    let bishops := pieces.filterMap fun p =>
      if p.2.2 = PieceType.bishop then some (p.1, p.2.1) else none
    match bishops with
    | [b1, b2] => decide (b1.2 ≠ b2.2) && decide (sqShade b1.1 = sqShade b2.1)
    | _ => false
  else false

/-- `GameState._update_result`: first match wins. -/
def updateResult (hash : Board → Nat) (s : GameState) : GameState :=
  let (legal, s1) := gsLegalMoves s
  let current := s1.board.turn
  if legal = [] then
    if isInCheck s1.board current then
      -- Checkmate: the side that just moved wins
      { s1 with result := if current = Color.white then GameResult.blackWins
                          else GameResult.whiteWins }
    else
      { s1 with result := GameResult.draw, drawReason := some DrawReason.stalemate }
  else if 100 ≤ s1.board.halfmoveClock then
    { s1 with result := GameResult.draw, drawReason := some DrawReason.fiftyMove }
  else if 3 ≤ s1.positionCounts (hash s1.board) then
    { s1 with result := GameResult.draw, drawReason := some DrawReason.threefold }
  else if isInsufficientMaterial s1.board then
    { s1 with result := GameResult.draw, drawReason := some DrawReason.insufficient }
  else s1

/-- `GameState.make_move`: reject when the game is over or the move does
not occur in the legal-move list under `Move.__eq__`; otherwise apply the
*submitted* move, record, and recompute the result. -/
def gsMakeMove (hash : Board → Nat) (s : GameState) (m : Move) : Bool × GameState :=
  if s.result ≠ GameResult.ongoing then (false, s)
  else
    let (legal, s1) := gsLegalMoves s
    if ¬ (legal.any fun lm => moveEq m lm) then (false, s1)
    else
      let s2 := { s1 with
        board := makeMove s1.board m,
        moveHistory := s1.moveHistory ++ [m],
        cachedLegal := none }
      let s3 := recordPosition hash s2
      (true, updateResult hash s3)

/-- `GameState.__init__`: start position, empty history, record the
initial position. -/
def initialGameState (hash : Board → Nat) : GameState :=
  recordPosition hash
    { board := startBoard, positionCounts := fun _ => 0, moveHistory := [],
      cachedLegal := none, result := GameResult.ongoing, drawReason := none,
      resignation := none }

/-! ### Minimax search (`search/minimax.py`)

The evaluator (`EvaluatorBase.evaluate`) is a parameter `Board → Int`:
`best_move`/`_search` consult the game state only through its board.
The node counter is diagnostic only and is not modelled. -/

/-- `_INF`. -/
def INF : Int := 100000000

/-- `_PIECE_SORT_VALUE`. -/
def pieceSortValue : PieceType → Int
  | .pawn => 1
  | .knight => 3
  | .bishop => 3
  | .rook => 5
  | .queen => 9
  | .king => 100

/-- The `_score` key of `_order_moves`. -/
def orderScore (b : Board) (m : Move) : Int :=
  match b.squares m.toSq with
  | some target =>
    -(pieceSortValue target.2 * 10 -
        (((b.squares m.fromSq).map fun attacker => pieceSortValue attacker.2).getD 0))
  | none => 0

/-- Stable insertion into an ascending run: a move goes before the first
entry whose key is not smaller. -/
def orderedInsert (key : Move → Int) (m : Move) : List Move → List Move
  | [] => [m]
  | y :: ys => if key m ≤ key y then m :: y :: ys else y :: orderedInsert key m ys

/-- Stable ascending sort by key (insertion sort), matching the result of
Python's stable `list.sort(key=...)` for the integer key. -/
def sortByKey (key : Move → Int) : List Move → List Move
  | [] => []
  | x :: xs => orderedInsert key x (sortByKey key xs)

/-- `_order_moves`: stable sort ascending by `_score`. -/
def orderMoves (b : Board) (moves : List Move) : List Move :=
  sortByKey (orderScore b) moves

/-- The alpha-beta loop of `_search` over the ordered moves, threading the
board through make/undo and breaking when `beta <= alpha`. -/
def minimaxLoop (recur : Board → Int → Int → Int × Board) (maximizing : Bool) :
    List Move → Board → Int → Int → Int → Int × Board
  | [], b, _, _, value => (value, b)
  | m :: rest, b, alpha, beta, value =>
    let b1 := makeMove b m
    let sb := recur b1 alpha beta
    let b2 := undoMove sb.2
    if maximizing then
      let value' := max value sb.1
      let alpha' := max alpha value'
      if beta ≤ alpha' then (value', b2)
      else minimaxLoop recur maximizing rest b2 alpha' beta value'
    else
      let value' := min value sb.1
      let beta' := min beta value'
      if beta' ≤ alpha then (value', b2)
      else minimaxLoop recur maximizing rest b2 alpha beta' value'

/-- `MinimaxSearcher._search`.  Returns the score together with the board
it leaves behind (the source mutates the board in place and undoes its
work). -/
def searchFn (ev : Board → Int) (depth : Nat) (b : Board) (alpha beta : Int)
    (maximizing : Bool) : Int × Board :=
  let legal := generateLegalMoves b
  let current := b.turn
  if legal = [] then
    if isInCheck b current then
      -- Source comment: "Checkmate: the caller (opponent) wins"
      (if maximizing then INF else -INF, b)
    else (0, b)
  else
    match depth with
    | 0 => (ev b, b)
    | d + 1 =>
      let ordered := orderMoves b legal
      if maximizing then
        minimaxLoop (fun b' a bb => searchFn ev d b' a bb false) true ordered b alpha beta (-INF)
      else
        minimaxLoop (fun b' a bb => searchFn ev d b' a bb true) false ordered b alpha beta INF

/-- The root loop of `best_move`: strict improvement updates the best
move; no pruning break at the root. -/
def bestMoveLoop (ev : Board → Int) (depth : Nat) (maximizing : Bool) :
    List Move → Board → Int → Int → Int → Option Move → Option Move
  | [], _, _, _, _, best => best
  | m :: rest, b, alpha, beta, bestScore, best =>
    let b1 := makeMove b m
    let sb := searchFn ev depth b1 alpha beta (!maximizing)
    let b2 := undoMove sb.2
    if maximizing then
      let bs' := if bestScore < sb.1 then (sb.1, some m) else (bestScore, best)
      bestMoveLoop ev depth maximizing rest b2 (max alpha sb.1) beta bs'.1 bs'.2
    else
      let bs' := if sb.1 < bestScore then (sb.1, some m) else (bestScore, best)
      bestMoveLoop ev depth maximizing rest b2 alpha (min beta sb.1) bs'.1 bs'.2

/-- `MinimaxSearcher.best_move` (constructed with ply budget `depth`). -/
def bestMove (ev : Board → Int) (depth : Nat) (b : Board) : Option Move :=
  let maximizing := decide (b.turn = Color.white)
  let legal := generateLegalMoves b
  if legal = [] then none
  else
    let ordered := orderMoves b legal
    bestMoveLoop ev (depth - 1) maximizing ordered b (-INF) INF
      (if maximizing then -INF else INF) none

/-! ### Session move interface (`api/session.py`) -/

/-- The `promo_map` lookup of `GameSession.make_move`: keys are the full
upper-case piece names. -/
def promoNameMap (u : String) : Option PieceType :=
  if u = "QUEEN" then some PieceType.queen
  else if u = "ROOK" then some PieceType.rook
  else if u = "BISHOP" then some PieceType.bishop
  else if u = "KNIGHT" then some PieceType.knight
  else none

/-- Python `str.upper()` (character-wise upper-casing; the promotion
names involved are ASCII). -/
def strUpper (s : String) : String := String.mk (s.data.map Char.toUpper)

/-- Resolution of the `promotion` argument: skipped entirely when the
string is absent or empty (Python truthiness), otherwise looked up
upper-cased; an unknown name resolves to no promotion. -/
def resolvePromotion (promotion : Option String) : Option PieceType :=
  match promotion with
  | none => none
  | some p => if p.length ≠ 0 then promoNameMap (strUpper p) else none

/-- `GameSession.make_move`: find the first legal move matching the given
squares and resolved promotion, and submit it to `GameState.make_move`.
Returns `(ok, error_message)` with the threaded state. -/
def sessionMakeMove (hash : Board → Nat) (gs : GameState) (fromSq toSq : Int)
    (promotion : Option String) : Bool × String × GameState :=
  let promoPt := resolvePromotion promotion
  let (legal, gs1) := gsLegalMoves gs
  match legal.find? (fun lm =>
      lm.fromSq == fromSq && lm.toSq == toSq && lm.promotion == promoPt) with
  | none => (false, "Illegal move", gs1)
  | some matched =>
    let og := gsMakeMove hash gs1 matched
    (og.1, "", og.2)

/-! ### Concrete positions used by the theorems -/

/-- A bare test board: given pieces, given side to move, no castling
rights, no en-passant square. -/
def mkBoard (turn : Color) (ps : List (Int × Piece)) : Board :=
  { squares := fun s => (ps.find? fun p => p.1 == s).map fun p => p.2,
    turn := turn,
    castling := ⟨false, false, false, false⟩,
    epSquare := none,
    halfmoveClock := 0,
    fullmoveNumber := 1,
    history := [] }

/-- White to move, checkmated: white king a1, black queen b2, black king b3. -/
def whiteMatedBoard : Board :=
  mkBoard Color.white
    [(56, (Color.white, PieceType.king)),
     (49, (Color.black, PieceType.queen)),
     (41, (Color.black, PieceType.king))]

/-- Black to move, checkmated: black king h8, white queen g7, white king g6. -/
def blackMatedBoard : Board :=
  mkBoard Color.black
    [(7, (Color.black, PieceType.king)),
     (14, (Color.white, PieceType.queen)),
     (22, (Color.white, PieceType.king))]

/-- Black to move, stalemated: black king h8, white queen g6, white king f7. -/
def stalematedBoard : Board :=
  mkBoard Color.black
    [(7, (Color.black, PieceType.king)),
     (22, (Color.white, PieceType.queen)),
     (13, (Color.white, PieceType.king))]

/-- White to move with exactly one legal move (g6-g7), which delivers
checkmate: white king h6, white pawns g6 and f7; black king h8, black
rook e5, black knight f8. -/
def forcedMateBoard : Board :=
  mkBoard Color.white
    [(23, (Color.white, PieceType.king)),
     (22, (Color.white, PieceType.pawn)),
     (13, (Color.white, PieceType.pawn)),
     (7, (Color.black, PieceType.king)),
     (28, (Color.black, PieceType.rook)),
     (5, (Color.black, PieceType.knight))]

/-- The starting position with f1 and g1 vacated: White may castle
kingside. -/
def castleReadyBoard : Board :=
  { startBoard with
    squares := fun s => if s = 61 ∨ s = 62 then none else startBoard.squares s }

/-- A game state over `castleReadyBoard` with empty bookkeeping. -/
def castleReadyState : GameState :=
  { board := castleReadyBoard, positionCounts := fun _ => 0, moveHistory := [],
    cachedLegal := none, result := GameResult.ongoing, drawReason := none,
    resignation := none }

/-- The legal kingside castling move of `castleReadyBoard`. -/
def castleMoveFlagged : Move := { fromSq := 60, toSq := 62, isCastle := true }

/-- The same squares submitted without the castle flag. -/
def castleMovePlain : Move := { fromSq := 60, toSq := 62 }

/-- A concrete hash function instance for witnesses (the claims under
test do not depend on the hash values). -/
def hash0 : Board → Nat := fun _ => 0

/-- The fresh game state built over `hash0`. -/
def gs0 : GameState := initialGameState hash0

/-- The double pawn push e2–e4. -/
def mv0 : Move := { fromSq := 52, toSq := 36 }

/-- A position where White may promote: pawn e7, king h1; black king a8. -/
def promoBoard : Board :=
  mkBoard Color.white
    [(12, (Color.white, PieceType.pawn)),
     (63, (Color.white, PieceType.king)),
     (0, (Color.black, PieceType.king))]

/-- A game state over `promoBoard` with empty bookkeeping. -/
def promoState : GameState :=
  { board := promoBoard, positionCounts := fun _ => 0, moveHistory := [],
    cachedLegal := none, result := GameResult.ongoing, drawReason := none,
    resignation := none }

/-- The facts about a move (relative to the board it is played on) that
the move generator guarantees and that make `undo_move` an exact inverse
of `make_move`: a piece of the side to move stands on the from-square;
from and to differ; a promotion move is a pawn move carrying no flags;
an en-passant move's victim square is distinct from both endpoints and
carries no other flag; a castling move is one of the four concrete king
moves with the rook's target square empty. -/
structure MoveOk (b : Board) (m : Move) : Prop where
  piece : ∃ pt : PieceType, b.squares m.fromSq = some (b.turn, pt)
  ne : m.fromSq ≠ m.toSq
  promo : m.promotion.isSome = true →
    b.squares m.fromSq = some (b.turn, PieceType.pawn) ∧
    m.isCastle = false ∧ m.isEnPassant = false
  ep : m.isEnPassant = true →
    epCapSqOf b.turn m.toSq ≠ m.fromSq ∧ epCapSqOf b.turn m.toSq ≠ m.toSq ∧
    m.isCastle = false ∧ m.promotion = none
  castle : m.isCastle = true →
    m.promotion = none ∧ m.isEnPassant = false ∧
    ((m.fromSq = 60 ∧ m.toSq = 62 ∧ b.squares 61 = none) ∨
     (m.fromSq = 60 ∧ m.toSq = 58 ∧ b.squares 59 = none) ∨
     (m.fromSq = 4 ∧ m.toSq = 6 ∧ b.squares 5 = none) ∨
     (m.fromSq = 4 ∧ m.toSq = 2 ∧ b.squares 3 = none))

/-- The pieces other than kings on the board. -/
def nonKingPieces (b : Board) : List (Int × Color × PieceType) :=
  (boardPieces b).filter fun p => !(p.2.2 == PieceType.king)

/-- The insufficiency condition as the claim words it, over the non-king
material: (a) nothing besides the kings, (b) a single minor piece,
(c) exactly two bishops, held by opposite colors, on same-colored
squares. -/
def claimInsufficient (b : Board) : Bool :=
  match nonKingPieces b with
  | [] => true
  | [(_, _, pt)] => pt == PieceType.bishop || pt == PieceType.knight
  | [(s1, c1, pt1), (s2, c2, pt2)] =>
    pt1 == PieceType.bishop && pt2 == PieceType.bishop && c1 != c2 &&
      sqShade s1 == sqShade s2
  | _ => false

end Chess

namespace Chess

/-! ## Theorems for the claims -/

/-- C1: In `MinimaxSearcher._search`, a position with no legal moves and
the side to move in check is scored `_INF if maximizing else -_INF` — the
*positive* extreme when the checkmated side to move is White (maximizing
true) and the *negative* extreme when it is Black, i.e. the sign is the
opposite of the claim's (and of the in-source comment "the caller
(opponent) wins"): the mate score favours the side that is checkmated.
The stalemate value 0 does match the claim.  Evaluated here at concrete
checkmate and stalemate positions, for every evaluator, depth and
alpha/beta window. -/
theorem c1_search_mate_score_sign_inverted :
    (∀ (ev : Board → Int) (depth : Nat) (alpha beta : Int),
      (searchFn ev depth whiteMatedBoard alpha beta true).1 = INF) ∧
    (∀ (ev : Board → Int) (depth : Nat) (alpha beta : Int),
      (searchFn ev depth blackMatedBoard alpha beta false).1 = -INF) ∧
    (∀ (ev : Board → Int) (depth : Nat) (alpha beta : Int),
      (searchFn ev depth stalematedBoard alpha beta false).1 = 0) ∧
    generateLegalMoves whiteMatedBoard = [] ∧
    isInCheck whiteMatedBoard Color.white = true ∧
    whiteMatedBoard.turn = Color.white ∧
    generateLegalMoves blackMatedBoard = [] ∧
    isInCheck blackMatedBoard Color.black = true ∧
    blackMatedBoard.turn = Color.black ∧
    generateLegalMoves stalematedBoard = [] ∧
    isInCheck stalematedBoard Color.black = false := by
  refine ⟨fun ev depth a b => ?_, fun ev depth a b => ?_, fun ev depth a b => ?_,
    ?_, ?_, ?_, ?_, ?_, ?_, ?_, ?_⟩
  · cases depth <;> rfl
  · cases depth <;> rfl
  · cases depth <;> rfl
  all_goals decide

/-- C5: `best_move` returns `None` on a position that has exactly one
legal move — the move checkmates, the recursive search scores it with the
initial best score (a consequence of the inverted mate sign of C1
together with the strict `>` comparison against the `-_INF`
initialisation), so no move is ever recorded.  This refutes "returns none
if and only if the legal-move list is empty" at depth 1. -/
theorem c5_best_move_none_despite_legal_move :
    generateLegalMoves forcedMateBoard = [{ fromSq := 22, toSq := 14 }] ∧
    (∀ ev : Board → Int, bestMove ev 1 forcedMateBoard = none) ∧
    isInCheck (makeMove forcedMateBoard { fromSq := 22, toSq := 14 }) Color.black = true ∧
    generateLegalMoves (makeMove forcedMateBoard { fromSq := 22, toSq := 14 }) = [] := by
  refine ⟨by decide, fun ev => rfl, by decide, by decide⟩

/-- C9 counterexample: `Move.from_uci` does not fail on malformed input.
The rank character `9` is out of range, yet `"a1a9"` decodes silently to
a move whose to-square is the out-of-range index `-8`; a 6-character
string (wrong length) also decodes, ignoring the trailing characters.  A
well-formed input decodes as described. -/
theorem c9_from_uci_accepts_malformed :
    fromUci "a1a9" = some { fromSq := 56, toSq := -8 } ∧
    fromUci "e2e4xx" = some { fromSq := 52, toSq := 36 } ∧
    fromUci "e7e8q" = some { fromSq := 12, toSq := 4, promotion := some PieceType.queen } := by
  refine ⟨by decide, by decide, by decide⟩

/-- C10: `GameState.make_move` applies the caller's submitted `Move`
object, and membership is tested by `Move.__eq__` (from, to, promotion
only).  Concretely: kingside castling is legal on `castleReadyBoard`; the
submitted copy of that move with `is_castle = False` is accepted, and the
board it produces leaves the rook on h1 with f1 empty — different from
the board the flagged legal entry produces (rook f1, h1 empty). -/
theorem c10_flagless_castle_applied_verbatim :
    castleMoveFlagged ∈ generateLegalMoves castleReadyBoard ∧
    castleMovePlain.isCastle = false ∧
    moveEq castleMovePlain castleMoveFlagged = true ∧
    (gsMakeMove hash0 castleReadyState castleMovePlain).1 = true ∧
    (gsMakeMove hash0 castleReadyState castleMovePlain).2.board.squares 61 = none ∧
    (gsMakeMove hash0 castleReadyState castleMovePlain).2.board.squares 63
      = some (Color.white, PieceType.rook) ∧
    (makeMove castleReadyBoard castleMoveFlagged).squares 61
      = some (Color.white, PieceType.rook) ∧
    (makeMove castleReadyBoard castleMoveFlagged).squares 63 = none := by
  refine ⟨by decide, rfl, rfl, by decide, by decide, by decide, by decide, by decide⟩

/-! ### C7: characterization of `_is_insufficient_material` -/

theorem filter_partition_length {α : Type} (p : α → Bool) (l : List α) :
    (l.filter p).length + (l.filter fun a => !(p a)).length = l.length := by
  induction l with
  | nil => rfl
  | cons x xs ih =>
    by_cases hx : p x = true <;> simp [List.filter_cons, hx] <;> omega

theorem any_filter_of_imp {α : Type} (f g : α → Bool) (l : List α)
    (h : ∀ x, f x = true → g x = true) :
    (l.filter g).any f = l.any f := by
  induction l with
  | nil => rfl
  | cons x xs ih =>
    by_cases hg : g x = true
    · simp [List.filter_cons, hg, List.any_cons, ih]
    · have hf : f x = false := by
        cases hfx : f x
        · rfl
        · exact absurd (h x hfx) hg
      simp [List.filter_cons, hg, List.any_cons, hf, ih]

theorem filterMap_filter_of {α β : Type} (fm : α → Option β) (g : α → Bool) (l : List α)
    (h : ∀ x, g x = false → fm x = none) :
    (l.filter g).filterMap fm = l.filterMap fm := by
  induction l with
  | nil => rfl
  | cons x xs ih =>
    by_cases hg : g x = true
    · simp [List.filter_cons, hg, List.filterMap_cons, ih]
    · have hgf : g x = false := by simpa using hg
      simp [List.filter_cons, hgf, List.filterMap_cons, h x hgf, ih]

/-- C7: with both kings on the board (two king entries in the piece
list — in a real game one per color), `_is_insufficient_material` returns
true exactly for: two bare kings; king and a single bishop or knight
versus a bare king; king and bishop versus king and bishop with the two
bishops held by opposite colors and standing on same-colored squares.
It does not fire for any other material. -/
theorem c7_insufficient_material_characterization (b : Board)
    (hk : ((boardPieces b).filter fun p => p.2.2 == PieceType.king).length = 2) :
    isInsufficientMaterial b = claimInsufficient b := by
  have hpart := filter_partition_length
    (fun p : Int × Color × PieceType => p.2.2 == PieceType.king) (boardPieces b)
  rw [show ((boardPieces b).filter fun a : Int × Color × PieceType =>
      !(a.2.2 == PieceType.king)) = nonKingPieces b from rfl] at hpart
  have hlen : (boardPieces b).length = 2 + (nonKingPieces b).length := by omega
  have hminor : ∀ x : Int × Color × PieceType,
      decide (x.2.2 = PieceType.bishop ∨ x.2.2 = PieceType.knight) = true →
        (!(x.2.2 == PieceType.king)) = true := by
    rintro ⟨s, c, pt⟩ hx
    cases pt <;> simp_all
  have hany := any_filter_of_imp
    (fun x : Int × Color × PieceType =>
      decide (x.2.2 = PieceType.bishop ∨ x.2.2 = PieceType.knight))
    (fun x => !(x.2.2 == PieceType.king)) (boardPieces b) hminor
  have hbish := filterMap_filter_of
    (fun x : Int × Color × PieceType =>
      if x.2.2 = PieceType.bishop then some (x.1, x.2.1) else none)
    (fun x => !(x.2.2 == PieceType.king)) (boardPieces b)
    (by
      rintro ⟨s, c, pt⟩ hx
      cases pt <;> simp_all)
  rw [show ((boardPieces b).filter fun a : Int × Color × PieceType =>
      !(a.2.2 == PieceType.king)) = nonKingPieces b from rfl] at hany hbish
  unfold isInsufficientMaterial claimInsufficient
  rcases hN : nonKingPieces b with _ | ⟨⟨s1, c1, pt1⟩, _ | ⟨⟨s2, c2, pt2⟩, _ | ⟨x3, rest⟩⟩⟩
  · rw [hN] at hlen
    simp only [List.length_nil] at hlen
    simp [hlen]
  · rw [hN] at hlen hany
    simp only [List.length_cons, List.length_nil] at hlen
    have h2 : ¬((boardPieces b).length = 2) := by omega
    have h3 : (boardPieces b).length = 3 := by omega
    simp only [h2, h3, if_false, if_true, if_neg, if_pos, ← hany, List.any_cons, List.any_nil]
    cases pt1 <;> simp
  · rw [hN] at hlen hbish
    simp only [List.length_cons, List.length_nil] at hlen
    have h2 : ¬((boardPieces b).length = 2) := by omega
    have h3 : ¬((boardPieces b).length = 3) := by omega
    have h4 : (boardPieces b).length = 4 := by omega
    simp only [h2, h3, h4, if_false, if_true, if_neg, if_pos]
    rw [← hbish]
    by_cases hb1 : pt1 = PieceType.bishop <;> by_cases hb2 : pt2 = PieceType.bishop
    · subst hb1; subst hb2
      simp only [List.filterMap_cons, List.filterMap_nil, if_pos rfl]
      cases c1 <;> cases c2 <;> by_cases hs : sqShade s1 = sqShade s2 <;>
        simp [hs, beq_iff_eq]
    · subst hb1
      simp only [List.filterMap_cons, List.filterMap_nil, if_pos rfl, if_neg hb2]
      cases pt2 <;> first | exact absurd rfl hb2 | rfl
    · subst hb2
      simp only [List.filterMap_cons, List.filterMap_nil, if_pos rfl, if_neg hb1]
      cases pt1 <;> first | exact absurd rfl hb1 | rfl
    · simp only [List.filterMap_cons, List.filterMap_nil, if_neg hb1, if_neg hb2]
      cases pt1 <;>
        first
          | exact absurd rfl hb1
          | (cases pt2 <;> first | exact absurd rfl hb2 | rfl)
  · rw [hN] at hlen
    simp only [List.length_cons] at hlen
    have h2 : ¬((boardPieces b).length = 2) := by omega
    have h3 : ¬((boardPieces b).length = 3) := by omega
    have h4 : ¬((boardPieces b).length = 4) := by omega
    simp [h2, h3, h4]

/-- C4 counterexample: a failing `GameState.make_move` does *not* leave
the entire state unchanged.  On the fresh initial state (whose legal-move
cache is absent) an illegal submission is rejected, yet the rejection
populates the cache — the returned state differs from the input state in
its `_cached_legal` field. -/
theorem c4_reject_populates_cache :
    (gsMakeMove hash0 gs0 { fromSq := 0, toSq := 0 }).1 = false ∧
    gs0.cachedLegal = none ∧
    (gsMakeMove hash0 gs0 { fromSq := 0, toSq := 0 }).2.cachedLegal
      = some (generateLegalMoves startBoard) ∧
    (gsMakeMove hash0 gs0 { fromSq := 0, toSq := 0 }).2.cachedLegal ≠ gs0.cachedLegal := by
  refine ⟨by decide, rfl, by decide, by decide⟩

/-! ### Helper lemmas on the game-state operations -/

theorem gsLegalMoves_board (s : GameState) : (gsLegalMoves s).2.board = s.board := by
  unfold gsLegalMoves; cases s.cachedLegal <;> rfl

theorem gsLegalMoves_moveHistory (s : GameState) :
    (gsLegalMoves s).2.moveHistory = s.moveHistory := by
  unfold gsLegalMoves; cases s.cachedLegal <;> rfl

theorem gsLegalMoves_positionCounts (s : GameState) :
    (gsLegalMoves s).2.positionCounts = s.positionCounts := by
  unfold gsLegalMoves; cases s.cachedLegal <;> rfl

theorem gsLegalMoves_result (s : GameState) : (gsLegalMoves s).2.result = s.result := by
  unfold gsLegalMoves; cases s.cachedLegal <;> rfl

theorem gsLegalMoves_drawReason (s : GameState) :
    (gsLegalMoves s).2.drawReason = s.drawReason := by
  unfold gsLegalMoves; cases s.cachedLegal <;> rfl

theorem gsLegalMoves_resignation (s : GameState) :
    (gsLegalMoves s).2.resignation = s.resignation := by
  unfold gsLegalMoves; cases s.cachedLegal <;> rfl

theorem gsLegalMoves_cache (s : GameState) :
    (gsLegalMoves s).2.cachedLegal = s.cachedLegal ∨
      (s.cachedLegal = none ∧
        (gsLegalMoves s).2.cachedLegal = some (generateLegalMoves s.board)) := by
  unfold gsLegalMoves
  rcases hc : s.cachedLegal with _ | l
  · exact Or.inr ⟨rfl, rfl⟩
  · exact Or.inl hc

theorem updateResult_board (hash : Board → Nat) (t : GameState) :
    (updateResult hash t).board = t.board := by
  unfold updateResult
  rcases hgl : gsLegalMoves t with ⟨legal, t1⟩
  have hb : t1.board = t.board := by rw [← gsLegalMoves_board t, hgl]
  dsimp only
  split <;> [skip; split <;> [exact hb; split <;> [exact hb; split <;> exact hb]]]
  split <;> exact hb

theorem updateResult_positionCounts (hash : Board → Nat) (t : GameState) :
    (updateResult hash t).positionCounts = t.positionCounts := by
  unfold updateResult
  rcases hgl : gsLegalMoves t with ⟨legal, t1⟩
  have hb : t1.positionCounts = t.positionCounts := by
    rw [← gsLegalMoves_positionCounts t, hgl]
  dsimp only
  split <;> [skip; split <;> [exact hb; split <;> [exact hb; split <;> exact hb]]]
  split <;> exact hb

/-- C8 counterexample: the promotion *letter* `q` does not map to the
queen — `GameSession.make_move` looks promotion strings up by full
upper-cased piece name, so `"q"` resolves to no promotion and a queen
promotion submitted with the letter is rejected, while `"QUEEN"` (or any
case variant of the full name) is accepted. -/
theorem c8_promotion_letter_not_mapped :
    resolvePromotion (some "q") = none ∧
    resolvePromotion (some "queen") = some PieceType.queen ∧
    ({ fromSq := 12, toSq := 4, promotion := some PieceType.queen } : Move)
      ∈ generateLegalMoves promoBoard ∧
    (sessionMakeMove hash0 promoState 12 4 (some "q")).1 = false ∧
    (sessionMakeMove hash0 promoState 12 4 (some "QUEEN")).1 = true := by
  refine ⟨rfl, rfl, by decide, by decide, by decide⟩

/-- Reduction of `gsMakeMove` through the destructuring of the
`legal_moves` property. -/
theorem gsMakeMove_eq (hash : Board → Nat) (s : GameState) (m : Move) :
    gsMakeMove hash s m =
      if s.result ≠ GameResult.ongoing then (false, s)
      else if ¬ ((gsLegalMoves s).1.any fun lm => moveEq m lm) then (false, (gsLegalMoves s).2)
      else
        (true, updateResult hash (recordPosition hash
          { (gsLegalMoves s).2 with
            board := makeMove (gsLegalMoves s).2.board m,
            moveHistory := (gsLegalMoves s).2.moveHistory ++ [m],
            cachedLegal := none })) := by
  unfold gsMakeMove
  rcases hgl : gsLegalMoves s with ⟨legal, s1⟩
  rfl

/-- Reduction of `sessionMakeMove` through the destructuring of the
`legal_moves` property. -/
theorem sessionMakeMove_eq (hash : Board → Nat) (gs : GameState) (f t : Int)
    (p : Option String) :
    sessionMakeMove hash gs f t p =
      match (gsLegalMoves gs).1.find? (fun lm =>
          lm.fromSq == f && lm.toSq == t && lm.promotion == resolvePromotion p) with
      | none => (false, "Illegal move", (gsLegalMoves gs).2)
      | some matched =>
        ((gsMakeMove hash (gsLegalMoves gs).2 matched).1, "",
         (gsMakeMove hash (gsLegalMoves gs).2 matched).2) := by
  unfold sessionMakeMove
  rcases hgl : gsLegalMoves gs with ⟨legal, s1⟩
  rfl

/-- C4 (amended): `GameState.make_move` fails exactly when the game's
result is not ongoing or the submitted move matches no entry of the
legal-move list under `(from, to, promotion)` equality; a failing call
leaves board, move history, position counts, result, draw reason and
resignation unchanged, and leaves the legal-move cache either unchanged
or — when it was absent — populated with the computed legal-move list. -/
theorem c4_make_move_reject_semantics (hash : Board → Nat) (s : GameState) (m : Move) :
    ((gsMakeMove hash s m).1 = false ↔
      (s.result ≠ GameResult.ongoing ∨
        ¬ ∃ lm ∈ (gsLegalMoves s).1, moveEq m lm = true)) ∧
    ((gsMakeMove hash s m).1 = false →
      ((gsMakeMove hash s m).2.board = s.board ∧
       (gsMakeMove hash s m).2.moveHistory = s.moveHistory ∧
       (gsMakeMove hash s m).2.positionCounts = s.positionCounts ∧
       (gsMakeMove hash s m).2.result = s.result ∧
       (gsMakeMove hash s m).2.drawReason = s.drawReason ∧
       (gsMakeMove hash s m).2.resignation = s.resignation ∧
       ((gsMakeMove hash s m).2.cachedLegal = s.cachedLegal ∨
         (s.cachedLegal = none ∧
          (gsMakeMove hash s m).2.cachedLegal = some (generateLegalMoves s.board))))) := by
  by_cases hr : s.result = GameResult.ongoing
  · have hred := gsMakeMove_eq hash s m
    rw [if_neg (by simp [hr])] at hred
    by_cases hm : ((gsLegalMoves s).1.any fun lm => moveEq m lm) = true
    · rw [hred, if_neg (by simp [hm])]
      constructor
      · simp only [List.any_eq_true] at hm
        simp [hr, hm]
      · intro h
        exact absurd h (by simp)
    · rw [hred, if_pos (by simpa using hm)]
      constructor
      · simp only [List.any_eq_true] at hm
        simp [hr, hm]
      · intro _
        refine ⟨gsLegalMoves_board s, gsLegalMoves_moveHistory s,
          gsLegalMoves_positionCounts s, gsLegalMoves_result s,
          gsLegalMoves_drawReason s, gsLegalMoves_resignation s,
          gsLegalMoves_cache s⟩
  · have hred := gsMakeMove_eq hash s m
    rw [if_pos hr] at hred
    rw [hred]
    exact ⟨by simp [hr], fun _ => ⟨rfl, rfl, rfl, rfl, rfl, rfl, Or.inl rfl⟩⟩

/-- Witness for C4 (amended): the rejection of an illegal move on the
fresh initial state, with the unchanged-fields conclusion instantiated. -/
theorem c4_make_move_reject_semantics_witness :
    (gsMakeMove hash0 gs0 { fromSq := 0, toSq := 0 }).2.board = gs0.board ∧
    (gsMakeMove hash0 gs0 { fromSq := 0, toSq := 0 }).2.moveHistory = gs0.moveHistory ∧
    (gsMakeMove hash0 gs0 { fromSq := 0, toSq := 0 }).2.positionCounts = gs0.positionCounts ∧
    (gsMakeMove hash0 gs0 { fromSq := 0, toSq := 0 }).2.result = gs0.result ∧
    (gsMakeMove hash0 gs0 { fromSq := 0, toSq := 0 }).2.drawReason = gs0.drawReason ∧
    (gsMakeMove hash0 gs0 { fromSq := 0, toSq := 0 }).2.resignation = gs0.resignation ∧
    ((gsMakeMove hash0 gs0 { fromSq := 0, toSq := 0 }).2.cachedLegal = gs0.cachedLegal ∨
      (gs0.cachedLegal = none ∧
       (gsMakeMove hash0 gs0 { fromSq := 0, toSq := 0 }).2.cachedLegal
         = some (generateLegalMoves gs0.board))) :=
  (c4_make_move_reject_semantics hash0 gs0 { fromSq := 0, toSq := 0 }).2 (by decide)

/-- The threefold-repetition branch of `_update_result`, characterized for
a state whose legal-move cache was invalidated (as after a committed
move): the result is a threefold draw exactly when legal moves exist, the
halfmove clock is below 100, and the current position's recorded hash
count is at least 3. -/
theorem updateResult_threefold_iff (hash : Board → Nat) (t : GameState)
    (hres : t.result = GameResult.ongoing) (hcache : t.cachedLegal = none) :
    (((updateResult hash t).result = GameResult.draw ∧
      (updateResult hash t).drawReason = some DrawReason.threefold) ↔
      (generateLegalMoves t.board ≠ [] ∧ t.board.halfmoveClock < 100 ∧
        3 ≤ t.positionCounts (hash t.board))) := by
  have hgl : gsLegalMoves t = (generateLegalMoves t.board,
      { t with cachedLegal := some (generateLegalMoves t.board) }) := by
    unfold gsLegalMoves
    rw [hcache]
  unfold updateResult
  rw [hgl]
  dsimp only
  by_cases h1 : generateLegalMoves t.board = []
  · rw [if_pos h1]
    by_cases hc : isInCheck t.board t.board.turn = true
    · rw [if_pos hc]
      cases hcol : t.board.turn <;> simp [hcol, h1]
    · rw [if_neg hc]
      simp [h1]
  · rw [if_neg h1]
    by_cases h2 : 100 ≤ t.board.halfmoveClock
    · rw [if_pos h2]
      simp
      omega
    · rw [if_neg h2]
      by_cases h3 : 3 ≤ t.positionCounts (hash t.board)
      · rw [if_pos h3]
        simp [h1, h3]
        omega
      · rw [if_neg h3]
        by_cases h4 : isInsufficientMaterial t.board = true
        · rw [if_pos h4]
          simp [h3]
        · rw [if_neg h4]
          simp [hres, h3]

/-- C6: after a committed `GameState.make_move` the result is a draw with
reason threefold exactly when legal moves exist in the new position, its
halfmove clock is below 100, and the new position's Zobrist-hash count —
which now includes the just-recorded occurrence, over all committed
positions starting with the initial one — is at least 3; the first two
conditions reflect that stalemate/checkmate and the fifty-move rule are
tested first. -/
theorem c6_threefold_detection (hash : Board → Nat) (s : GameState) (m : Move)
    (hok : (gsMakeMove hash s m).1 = true) :
    (((gsMakeMove hash s m).2.result = GameResult.draw ∧
      (gsMakeMove hash s m).2.drawReason = some DrawReason.threefold) ↔
      (generateLegalMoves (gsMakeMove hash s m).2.board ≠ [] ∧
       (gsMakeMove hash s m).2.board.halfmoveClock < 100 ∧
       3 ≤ (gsMakeMove hash s m).2.positionCounts (hash (gsMakeMove hash s m).2.board))) := by
  by_cases hr : s.result = GameResult.ongoing
  · by_cases hm : ((gsLegalMoves s).1.any fun lm => moveEq m lm) = true
    · have hred := gsMakeMove_eq hash s m
      rw [if_neg (by simp [hr]), if_neg (by simp [hm])] at hred
      set t := recordPosition hash
        { (gsLegalMoves s).2 with
          board := makeMove (gsLegalMoves s).2.board m,
          moveHistory := (gsLegalMoves s).2.moveHistory ++ [m],
          cachedLegal := none } with ht
      have hres : t.result = GameResult.ongoing := by
        rw [ht]
        unfold recordPosition
        dsimp only
        rw [gsLegalMoves_result s]
        exact hr
      have hcache : t.cachedLegal = none := by
        rw [ht]; rfl
      have hiff := updateResult_threefold_iff hash t hres hcache
      rw [hred]
      dsimp only
      rw [updateResult_board, updateResult_positionCounts]
      exact hiff
    · exfalso
      have hfalse := gsMakeMove_eq hash s m
      rw [if_neg (by simp [hr]), if_pos (by simpa using hm)] at hfalse
      rw [hfalse] at hok
      exact absurd hok (by simp)
  · exfalso
    have hfalse := gsMakeMove_eq hash s m
    rw [if_pos hr] at hfalse
    rw [hfalse] at hok
    exact absurd hok (by simp)

/-- Witness for C6: the committed double push e2–e4 from the initial
state, with the threefold characterization instantiated there. -/
theorem c6_threefold_detection_witness :
    (((gsMakeMove hash0 gs0 mv0).2.result = GameResult.draw ∧
      (gsMakeMove hash0 gs0 mv0).2.drawReason = some DrawReason.threefold) ↔
      (generateLegalMoves (gsMakeMove hash0 gs0 mv0).2.board ≠ [] ∧
       (gsMakeMove hash0 gs0 mv0).2.board.halfmoveClock < 100 ∧
       3 ≤ (gsMakeMove hash0 gs0 mv0).2.positionCounts
             (hash0 (gsMakeMove hash0 gs0 mv0).2.board))) :=
  c6_threefold_detection hash0 gs0 mv0 (by decide)

/-- C8 (amended): `GameSession.make_move` resolves the promotion argument
by the full upper-cased piece name (QUEEN/ROOK/BISHOP/KNIGHT) — not by
single letters, which resolve to no promotion — and a move is accepted
only if some entry of the legal-move list matches the given from-square,
to-square and the resolved promotion exactly. -/
theorem c8_promotion_resolution_and_acceptance :
    (∀ str : String, resolvePromotion (some str) = promoNameMap (strUpper str)) ∧
    (∀ (hash : Board → Nat) (gs : GameState) (f t : Int) (p : Option String),
      (sessionMakeMove hash gs f t p).1 = true →
        ∃ lm ∈ (gsLegalMoves gs).1,
          lm.fromSq = f ∧ lm.toSq = t ∧ lm.promotion = resolvePromotion p) := by
  constructor
  · intro str
    have hdef : resolvePromotion (some str) =
        if str.length ≠ 0 then promoNameMap (strUpper str) else none := rfl
    by_cases h : str.length = 0
    · rw [hdef, if_neg (by simp [h])]
      have hd : str.data = [] := List.length_eq_zero.mp h
      obtain ⟨data⟩ := str
      have hdata : data = [] := hd
      subst hdata
      rfl
    · rw [hdef, if_pos (by simpa using h)]
  · intro hash gs f t p hok
    rw [sessionMakeMove_eq] at hok
    rcases hfind : (gsLegalMoves gs).1.find? (fun lm =>
        lm.fromSq == f && lm.toSq == t && lm.promotion == resolvePromotion p) with _ | matched
    · rw [hfind] at hok
      exact absurd hok (by simp)
    · refine ⟨matched, List.mem_of_find?_eq_some hfind, ?_⟩
      have hp := List.find?_some hfind
      simp only [Bool.and_eq_true, beq_iff_eq] at hp
      exact ⟨hp.1.1, hp.1.2, hp.2⟩

/-- Witness for C8 (amended): the accepted full-name promotion QUEEN on
`promoState` yields a matching legal entry. -/
theorem c8_promotion_resolution_and_acceptance_witness :
    ∃ lm ∈ (gsLegalMoves promoState).1,
      lm.fromSq = 12 ∧ lm.toSq = 4 ∧ lm.promotion = resolvePromotion (some "QUEEN") :=
  c8_promotion_resolution_and_acceptance.2 hash0 promoState 12 4 (some "QUEEN") (by decide)

/-- C9 (amended): `Move.from_uci` performs no validation.  Whenever both
rank characters are decimal digits — of any script, since `int()`
accepts every Unicode decimal digit — a string of length at least four
decodes silently to the move computed from the raw character arithmetic,
with no range check on the resulting square indices and with any excess
characters ignored (the fifth character is used as a promotion letter
exactly when the length is five); a string shorter than four characters
raises `IndexError` and a rank character that is not a decimal digit
raises `ValueError` (both modelled as `none`), uncaught exceptions
rather than a designed failure signal.  Concretely, `"a٣a4"` decodes
silently to squares `(40, 32)`. -/
theorem c9_from_uci_no_validation :
    (∀ c0 c1 c2 c3 : Char, ∀ d1 d3 : Int,
      digitVal c1 = some d1 → digitVal c3 = some d3 →
      fromUci (String.mk [c0, c1, c2, c3]) =
        some { fromSq := sqOf (8 - d1) ((c0.toNat : Int) - 97),
               toSq := sqOf (8 - d3) ((c2.toNat : Int) - 97) }) ∧
    (∀ c0 c1 c2 c3 c4 : Char, ∀ rest : List Char, ∀ d1 d3 : Int,
      digitVal c1 = some d1 → digitVal c3 = some d3 →
      fromUci (String.mk (c0 :: c1 :: c2 :: c3 :: c4 :: rest)) =
        some { fromSq := sqOf (8 - d1) ((c0.toNat : Int) - 97),
               toSq := sqOf (8 - d3) ((c2.toNat : Int) - 97),
               promotion := if rest = [] then letterPromo c4 else none }) ∧
    (∀ s : String, s.data.length < 4 → fromUci s = none) ∧
    (∀ c0 c1 c2 c3 : Char, ∀ rest : List Char, digitVal c1 = none →
      fromUci (String.mk (c0 :: c1 :: c2 :: c3 :: rest)) = none) ∧
    (∀ c0 c1 c2 c3 : Char, ∀ rest : List Char, digitVal c3 = none →
      fromUci (String.mk (c0 :: c1 :: c2 :: c3 :: rest)) = none) ∧
    fromUci (String.mk ['a', '٣', 'a', '4']) =
      some { fromSq := 40, toSq := 32 } := by
  refine ⟨?_, ?_, ?_, ?_, ?_, ?_⟩
  · intro c0 c1 c2 c3 d1 d3 hd1 hd3
    simp [fromUci, squareFromName, hd1, hd3, List.take, List.drop]
  · intro c0 c1 c2 c3 c4 rest d1 d3 hd1 hd3
    cases rest with
    | nil => simp [fromUci, squareFromName, hd1, hd3, List.take, List.drop]
    | cons c5 rest' =>
      simp only [fromUci, squareFromName, hd1, hd3, List.take, List.drop,
        if_true, if_pos, Option.map_some']
      have hlen : (c0 :: c1 :: c2 :: c3 :: c4 :: c5 :: rest').length ≠ 5 := by
        simp only [List.length_cons]
        omega
      simp [hlen]
  · intro s hlen
    rcases s with ⟨l⟩
    rcases l with _ | ⟨c0, _ | ⟨c1, _ | ⟨c2, _ | ⟨c3, rest⟩⟩⟩⟩
    · simp [fromUci, squareFromName, List.take, List.drop]
    · simp [fromUci, squareFromName, List.take, List.drop]
    · simp only [fromUci, squareFromName, List.take, List.drop]
      cases digitVal c1 <;> simp
    · simp only [fromUci, squareFromName, List.take, List.drop]
      cases digitVal c1 <;> simp
    · dsimp only at hlen
      simp only [List.length_cons] at hlen
      omega
  · intro c0 c1 c2 c3 rest h1
    simp [fromUci, squareFromName, h1, List.take, List.drop]
  · intro c0 c1 c2 c3 rest h3
    cases h1 : digitVal c1
    · simp [fromUci, squareFromName, h1, List.take, List.drop]
    · simp [fromUci, squareFromName, h1, h3, List.take, List.drop]
  · decide

/-- Witness for C9 (amended): the digit-rank clause applied to the
malformed string `a1a9`, whose to-square decodes out of range. -/
theorem c9_from_uci_no_validation_witness :
    fromUci (String.mk ['a', '1', 'a', '9']) =
      some { fromSq := sqOf (8 - 1) (('a'.toNat : Int) - 97),
             toSq := sqOf (8 - 9) (('a'.toNat : Int) - 97) } :=
  c9_from_uci_no_validation.1 'a' '1' 'a' '9' 1 9 (by decide) (by decide)

/-- Witness for C7: the characterization instantiated at the concrete
two-king position `whiteMatedBoard`. -/
theorem c7_insufficient_material_characterization_witness :
    isInsufficientMaterial whiteMatedBoard = claimInsufficient whiteMatedBoard :=
  c7_insufficient_material_characterization whiteMatedBoard (by decide)

/-! ### C2/C3: make/undo exactness and legal-move safety -/

theorem Color.opp_opp (c : Color) : c.opp.opp = c := by cases c <;> rfl

theorem sq_decomp (s : Int) : 8 * rowOf s + colOf s = s := Int.ediv_add_emod s 8

theorem colOf_nonneg (s : Int) : 0 ≤ colOf s := Int.emod_nonneg s (by norm_num)

theorem colOf_lt (s : Int) : colOf s < 8 := Int.emod_lt_of_pos s (by norm_num)

/-- A target square built from bounded coordinates differing from the
origin's coordinates is a different square. -/
theorem sqOf_ne_of_coords (s nr nc : Int) (h0 : 0 ≤ nc) (h7 : nc ≤ 7)
    (hne : nr ≠ rowOf s ∨ nc ≠ colOf s) : sqOf nr nc ≠ s := by
  have hid := sq_decomp s
  have h1 := colOf_nonneg s
  have h2 := colOf_lt s
  unfold sqOf
  rcases hne with h | h <;> omega

/-- Row and column of a square built from bounded coordinates. -/
theorem rowOf_colOf_sqOf (r c : Int) (h0 : 0 ≤ c) (h7 : c < 8) :
    rowOf (sqOf r c) = r ∧ colOf (sqOf r c) = c := by
  unfold rowOf colOf sqOf
  constructor
  · rw [show r * 8 + c = c + 8 * r by ring]
    rw [show Int.ediv (c + 8 * r) 8 = (c + 8 * r) / 8 from rfl]
    rw [Int.add_mul_ediv_left c r (by norm_num)]
    rw [Int.ediv_eq_zero_of_lt h0 h7]
    ring
  · rw [show r * 8 + c = c + 8 * r by ring]
    rw [show Int.emod (c + 8 * r) 8 = (c + 8 * r) % 8 from rfl]
    rw [Int.add_mul_emod_self_left]
    exact Int.emod_eq_of_lt h0 h7

/-- Moves produced by the fixed-offset generator (knight/king): from the
origin square, with no promotion or flags, to a distinct in-bounds
square. -/
theorem offsetMoves_ok (b : Board) (s : Int) (c : Color) (deltas : List (Int × Int))
    (hd : ∀ d ∈ deltas, d.1 ≠ 0 ∨ d.2 ≠ 0) (m : Move) (hm : m ∈ offsetMoves b s c deltas) :
    m.fromSq = s ∧ m.promotion = none ∧ m.isCastle = false ∧ m.isEnPassant = false ∧
      m.toSq ≠ s := by
  unfold offsetMoves at hm
  simp only [List.mem_filterMap] at hm
  obtain ⟨d, hdmem, hsome⟩ := hm
  by_cases hb : 0 ≤ rowOf s + d.1 ∧ rowOf s + d.1 ≤ 7 ∧ 0 ≤ colOf s + d.2 ∧ colOf s + d.2 ≤ 7
  · rw [if_pos hb] at hsome
    have hto : sqOf (rowOf s + d.1) (colOf s + d.2) ≠ s := by
      apply sqOf_ne_of_coords s _ _ hb.2.2.1 hb.2.2.2
      rcases hd d hdmem with h | h
      · exact Or.inl (by omega)
      · exact Or.inr (by omega)
    cases hsq : b.squares (sqOf (rowOf s + d.1) (colOf s + d.2)) with
    | none =>
      rw [hsq] at hsome
      dsimp only at hsome
      obtain rfl := Option.some.inj hsome
      exact ⟨rfl, rfl, rfl, rfl, hto⟩
    | some t =>
      rw [hsq] at hsome
      dsimp only at hsome
      by_cases ht : t.1 ≠ c
      · rw [if_pos ht] at hsome
        obtain rfl := Option.some.inj hsome
        exact ⟨rfl, rfl, rfl, rfl, hto⟩
      · rw [if_neg ht] at hsome
        exact absurd hsome (by simp)
  · rw [if_neg hb] at hsome
    exact absurd hsome (by simp)

/-- Moves produced by one ray walk of `_sliding`: from the origin square,
no promotion or flags, to a distinct square — the walk never revisits the
origin because it advances monotonically in its direction. -/
theorem slideRay_ok (b : Board) (c : Color) (s : Int) (dr dc : Int)
    (hd : dr ≠ 0 ∨ dc ≠ 0) :
    ∀ (fuel : Nat) (r cc : Int),
      ((0 < dr → rowOf s < r) ∧ (dr < 0 → r < rowOf s) ∧
        (dr = 0 → (0 < dc → colOf s < cc) ∧ (dc < 0 → cc < colOf s))) →
      ∀ m ∈ slideRay b c s dr dc r cc fuel,
        m.fromSq = s ∧ m.promotion = none ∧ m.isCastle = false ∧
          m.isEnPassant = false ∧ m.toSq ≠ s := by
  intro fuel
  induction fuel with
  | zero =>
    intro r cc _ m hm
    simp [slideRay] at hm
  | succ n ih =>
    intro r cc hinv m hm
    obtain ⟨i1, i2, i3⟩ := hinv
    unfold slideRay at hm
    by_cases hb : 0 ≤ r ∧ r ≤ 7 ∧ 0 ≤ cc ∧ cc ≤ 7
    · rw [if_pos hb] at hm
      dsimp only at hm
      have hto : sqOf r cc ≠ s := by
        apply sqOf_ne_of_coords s _ _ hb.2.2.1 hb.2.2.2
        rcases hd with h | h
        · rcases lt_trichotomy dr 0 with h' | h' | h'
          · exact Or.inl (by have := i2 h'; omega)
          · exact absurd h' h
          · exact Or.inl (by have := i1 h'; omega)
        · rcases lt_trichotomy dr 0 with h' | h' | h'
          · exact Or.inl (by have := i2 h'; omega)
          · rcases lt_trichotomy dc 0 with h'' | h'' | h''
            · exact Or.inr (by have := (i3 h').2 h''; omega)
            · exact absurd h'' h
            · exact Or.inr (by have := (i3 h').1 h''; omega)
          · exact Or.inl (by have := i1 h'; omega)
      have hinv' : ((0 < dr → rowOf s < r + dr) ∧ (dr < 0 → r + dr < rowOf s) ∧
          (dr = 0 → (0 < dc → colOf s < cc + dc) ∧ (dc < 0 → cc + dc < colOf s))) := by
        refine ⟨fun h => ?_, fun h => ?_, fun h => ⟨fun h2 => ?_, fun h2 => ?_⟩⟩
        · have := i1 h; omega
        · have := i2 h; omega
        · have := (i3 h).1 h2; omega
        · have := (i3 h).2 h2; omega
      cases hsq : b.squares (sqOf r cc) with
      | none =>
        rw [hsq] at hm
        dsimp only at hm
        rcases List.mem_cons.mp hm with h | h
        · subst h
          exact ⟨rfl, rfl, rfl, rfl, hto⟩
        · exact ih (r + dr) (cc + dc) hinv' m h
      | some t =>
        rw [hsq] at hm
        dsimp only at hm
        by_cases ht : t.1 ≠ c
        · rw [if_pos ht] at hm
          rcases List.mem_singleton.mp hm with rfl
          exact ⟨rfl, rfl, rfl, rfl, hto⟩
        · rw [if_neg ht] at hm
          exact absurd hm (by simp)
    · rw [if_neg hb] at hm
      exact absurd hm (by simp)

/-- Moves produced by `_sliding` over a direction list of nonzero
directions. -/
theorem slidingMoves_ok (b : Board) (s : Int) (c : Color) (dirs : List (Int × Int))
    (hd : ∀ d ∈ dirs, d.1 ≠ 0 ∨ d.2 ≠ 0) (m : Move) (hm : m ∈ slidingMoves b s c dirs) :
    m.fromSq = s ∧ m.promotion = none ∧ m.isCastle = false ∧ m.isEnPassant = false ∧
      m.toSq ≠ s := by
  unfold slidingMoves at hm
  simp only [List.mem_flatMap] at hm
  obtain ⟨d, hdmem, hray⟩ := hm
  refine slideRay_ok b c s d.1 d.2 (hd d hdmem) 8 _ _ ?_ m hray
  refine ⟨fun h => by omega, fun h => by omega, fun h => ⟨fun h2 => by omega, fun h2 => by omega⟩⟩

/-- Moves produced by one side of the pawn-capture loop: from the origin
square, never a castle, to a distinct square on row `nr`; promotions are
never en passant; an en-passant move carries no promotion and its target
column is the (in-bounds) neighbouring column. -/
theorem pawnCaptureMoves_ok (b : Board) (s : Int) (c : Color) (nr promoRow dc : Int)
    (_hnr0 : 0 ≤ nr) (_hnr7 : nr ≤ 7) (hrow : nr ≠ rowOf s) (m : Move)
    (hm : m ∈ pawnCaptureMoves b s c nr promoRow dc) :
    m.fromSq = s ∧ m.isCastle = false ∧ m.toSq ≠ s ∧
    (m.promotion.isSome = true → m.isEnPassant = false) ∧
    (m.isEnPassant = true →
      m.promotion = none ∧ m.toSq = sqOf nr (colOf s + dc) ∧
      0 ≤ colOf s + dc ∧ colOf s + dc ≤ 7) := by
  unfold pawnCaptureMoves at hm
  by_cases hb : 0 ≤ colOf s + dc ∧ colOf s + dc ≤ 7
  · rw [if_pos hb] at hm
    dsimp only at hm
    have hto : sqOf nr (colOf s + dc) ≠ s :=
      sqOf_ne_of_coords s _ _ hb.1 hb.2 (Or.inl hrow)
    have hepcase : m ∈ (if b.epSquare = some (sqOf nr (colOf s + dc)) then
        [({ fromSq := s, toSq := sqOf nr (colOf s + dc), isEnPassant := true } : Move)]
      else []) →
        m.fromSq = s ∧ m.isCastle = false ∧ m.toSq ≠ s ∧
        (m.promotion.isSome = true → m.isEnPassant = false) ∧
        (m.isEnPassant = true →
          m.promotion = none ∧ m.toSq = sqOf nr (colOf s + dc) ∧
          0 ≤ colOf s + dc ∧ colOf s + dc ≤ 7) := by
      intro hmem
      by_cases hep : b.epSquare = some (sqOf nr (colOf s + dc))
      · rw [if_pos hep] at hmem
        rcases List.mem_singleton.mp hmem with rfl
        exact ⟨rfl, rfl, hto, by simp, fun _ => ⟨rfl, rfl, hb.1, hb.2⟩⟩
      · rw [if_neg hep] at hmem
        exact absurd hmem (by simp)
    cases hsq : b.squares (sqOf nr (colOf s + dc)) with
    | none =>
      rw [hsq] at hm
      dsimp only at hm
      exact hepcase hm
    | some target =>
      rw [hsq] at hm
      dsimp only at hm
      by_cases ht : target.1 ≠ c
      · rw [if_pos ht] at hm
        by_cases hpr : nr = promoRow
        · rw [if_pos hpr] at hm
          simp only [List.mem_map] at hm
          obtain ⟨pt', _, rfl⟩ := hm
          exact ⟨rfl, rfl, hto, fun _ => rfl, by simp⟩
        · rw [if_neg hpr] at hm
          rcases List.mem_singleton.mp hm with rfl
          exact ⟨rfl, rfl, hto, by simp, by simp⟩
      · rw [if_neg ht] at hm
        exact hepcase hm
  · rw [if_neg hb] at hm
    exact absurd hm (by simp)

/-- Moves produced by `_pawn_moves`: from the origin square, never a
castle, to a distinct square; a promotion is never en passant; an
en-passant move carries no promotion and its computed victim square
differs from both endpoints of the move. -/
theorem pawnMoves_ok (b : Board) (s : Int) (c : Color) (m : Move)
    (hm : m ∈ pawnMoves b s c) :
    m.fromSq = s ∧ m.isCastle = false ∧ m.toSq ≠ s ∧
    (m.promotion.isSome = true → m.isEnPassant = false) ∧
    (m.isEnPassant = true →
      m.promotion = none ∧ epCapSqOf c m.toSq ≠ s ∧ epCapSqOf c m.toSq ≠ m.toSq) := by
  unfold pawnMoves at hm
  by_cases hg : 0 ≤ rowOf s + (if c = Color.white then (-1 : Int) else 1) ∧
      rowOf s + (if c = Color.white then (-1 : Int) else 1) ≤ 7
  · rw [if_pos hg] at hm
    dsimp only at hm
    set dir : Int := if c = Color.white then (-1 : Int) else 1 with hdirdef
    have hdir : dir = -1 ∨ dir = 1 := by
      rw [hdirdef]
      cases c <;> simp
    have hrow : rowOf s + dir ≠ rowOf s := by rcases hdir with h | h <;> omega
    rw [List.mem_append, List.mem_append] at hm
    rcases hm with (hm | hm) | hm
    · -- push block
      by_cases hfwd : b.squares (sqOf (rowOf s + dir) (colOf s)) = none
      · rw [if_pos hfwd] at hm
        by_cases hpr : rowOf s + dir = (if c = Color.white then (0 : Int) else 7)
        · rw [if_pos hpr] at hm
          simp only [List.mem_map] at hm
          obtain ⟨pt', _, rfl⟩ := hm
          refine ⟨rfl, rfl, ?_, fun _ => rfl, by simp⟩
          exact sqOf_ne_of_coords s _ _ (colOf_nonneg s) (by have := colOf_lt s; omega)
            (Or.inl hrow)
        · rw [if_neg hpr] at hm
          rcases List.mem_cons.mp hm with rfl | hm
          · refine ⟨rfl, rfl, ?_, by simp, by simp⟩
            exact sqOf_ne_of_coords s _ _ (colOf_nonneg s) (by have := colOf_lt s; omega)
              (Or.inl hrow)
          · by_cases hsr : rowOf s = (if c = Color.white then (6 : Int) else 1)
            · rw [if_pos hsr] at hm
              by_cases hdbl : b.squares (sqOf (rowOf s + 2 * dir) (colOf s)) = none
              · rw [if_pos hdbl] at hm
                rcases List.mem_singleton.mp hm with rfl
                refine ⟨rfl, rfl, ?_, by simp, by simp⟩
                refine sqOf_ne_of_coords s _ _ (colOf_nonneg s)
                  (by have := colOf_lt s; omega) (Or.inl ?_)
                rcases hdir with h | h <;> omega
              · rw [if_neg hdbl] at hm
                exact absurd hm (by simp)
            · rw [if_neg hsr] at hm
              exact absurd hm (by simp)
      · rw [if_neg hfwd] at hm
        exact absurd hm (by simp)
    all_goals {
      -- capture blocks (dc = -1 and dc = 1)
      have hcap := pawnCaptureMoves_ok b s c (rowOf s + dir)
        (if c = Color.white then (0 : Int) else 7) _ hg.1 hg.2 hrow m hm
      obtain ⟨hf, hc2, ht, hpe, hep⟩ := hcap
      refine ⟨hf, hc2, ht, hpe, fun he => ?_⟩
      obtain ⟨hprn, htoeq, hnc0, hnc7⟩ := hep he
      have hdirP : (if c = Color.white then (1 : Int) else -1) = -dir := by
        rw [hdirdef]
        cases c <;> simp
      have hrc := rowOf_colOf_sqOf (rowOf s + dir) _ hnc0 (by omega)
      rw [← htoeq] at hrc
      have hcap_eq : epCapSqOf c m.toSq = sqOf (rowOf s) (colOf m.toSq) := by
        unfold epCapSqOf sqOf
        rw [hdirP, hrc.1]
        ring
      refine ⟨hprn, ?_, ?_⟩
      · rw [hcap_eq]
        have h1 := colOf_nonneg m.toSq
        have h2 := colOf_lt m.toSq
        refine sqOf_ne_of_coords s _ _ h1 (by omega) (Or.inr (by rw [hrc.2]; omega))
      · rw [hcap_eq]
        intro heq
        have hL := rowOf_colOf_sqOf (rowOf s) (colOf m.toSq) (colOf_nonneg _) (colOf_lt _)
        have hRR : rowOf (sqOf (rowOf s) (colOf m.toSq)) = rowOf m.toSq := by rw [heq]
        rw [hL.1, hrc.1] at hRR
        rcases hdir with h | h <;> omega
    }
  · rw [if_neg hg] at hm
    exact absurd hm (by simp)

/-- Moves produced by `_castling_moves`: the king of the given color
stands on its home square, the move is one of the four concrete castle
moves, and the rook's post-castle square is empty. -/
theorem castlingMoves_ok (b : Board) (c : Color) (m : Move) (hm : m ∈ castlingMoves b c) :
    b.squares m.fromSq = some (c, PieceType.king) ∧ m.promotion = none ∧
    m.isEnPassant = false ∧ m.isCastle = true ∧ m.fromSq ≠ m.toSq ∧
    ((m.fromSq = 60 ∧ m.toSq = 62 ∧ b.squares 61 = none) ∨
     (m.fromSq = 60 ∧ m.toSq = 58 ∧ b.squares 59 = none) ∨
     (m.fromSq = 4 ∧ m.toSq = 6 ∧ b.squares 5 = none) ∨
     (m.fromSq = 4 ∧ m.toSq = 2 ∧ b.squares 3 = none)) := by
  unfold castlingMoves at hm
  cases c with
  | white =>
    dsimp only at hm
    by_cases hk : b.squares (sqOf 7 4) = some (Color.white, PieceType.king)
    · rw [if_pos hk] at hm
      rw [List.mem_append] at hm
      rcases hm with hm | hm
      · split_ifs at hm with hA
        · rcases List.mem_singleton.mp hm with rfl
          exact ⟨hk, rfl, rfl, rfl, by decide, Or.inl ⟨rfl, rfl, hA.2.2.1⟩⟩
        · exact absurd hm (by simp)
      · split_ifs at hm with hB
        · rcases List.mem_singleton.mp hm with rfl
          exact ⟨hk, rfl, rfl, rfl, by decide, Or.inr (Or.inl ⟨rfl, rfl, hB.2.2.1⟩)⟩
        · exact absurd hm (by simp)
    · rw [if_neg hk] at hm
      exact absurd hm (by simp)
  | black =>
    dsimp only at hm
    by_cases hk : b.squares (sqOf 0 4) = some (Color.black, PieceType.king)
    · rw [if_pos hk] at hm
      rw [List.mem_append] at hm
      rcases hm with hm | hm
      · split_ifs at hm with hA
        · rcases List.mem_singleton.mp hm with rfl
          exact ⟨hk, rfl, rfl, rfl, by decide, Or.inr (Or.inr (Or.inl ⟨rfl, rfl, hA.2.2.1⟩))⟩
        · exact absurd hm (by simp)
      · split_ifs at hm with hB
        · rcases List.mem_singleton.mp hm with rfl
          exact ⟨hk, rfl, rfl, rfl, by decide,
            Or.inr (Or.inr (Or.inr ⟨rfl, rfl, hB.2.2.1⟩))⟩
        · exact absurd hm (by simp)
    · rw [if_neg hk] at hm
      exact absurd hm (by simp)

/-- Assembling `MoveOk` for a flagless, promotion-free move. -/
theorem moveOk_of_simple (b : Board) (m : Move) (pt : PieceType)
    (hpiece : b.squares m.fromSq = some (b.turn, pt))
    (hpr : m.promotion = none) (hc : m.isCastle = false) (he : m.isEnPassant = false)
    (hne : m.fromSq ≠ m.toSq) : MoveOk b m := by
  refine ⟨⟨pt, hpiece⟩, hne, ?_, ?_, ?_⟩
  · intro h
    rw [hpr] at h
    exact absurd h (by simp)
  · intro h
    rw [he] at h
    exact absurd h (by simp)
  · intro h
    rw [hc] at h
    exact absurd h (by simp)

/-- Every pseudo-legal move satisfies the generator guarantees. -/
theorem pseudoLegal_ok (b : Board) (m : Move) (hm : m ∈ pseudoLegal b b.turn) :
    MoveOk b m := by
  unfold pseudoLegal at hm
  simp only [List.mem_flatMap, List.mem_range] at hm
  obtain ⟨sn, _, hm⟩ := hm
  cases hsq : b.squares (sn : Int) with
  | none =>
    rw [hsq] at hm
    exact absurd hm (by simp)
  | some piece =>
    rw [hsq] at hm
    dsimp only at hm
    by_cases hcol : piece.1 ≠ b.turn
    · rw [if_pos hcol] at hm
      exact absurd hm (by simp)
    · rw [if_neg hcol] at hm
      have hcol' : piece.1 = b.turn := not_ne_iff.mp hcol
      obtain ⟨pc, pt⟩ := piece
      dsimp only at hcol' hm
      subst hcol'
      cases pt with
      | pawn =>
        obtain ⟨hf, hc2, ht, hpe, hep⟩ := pawnMoves_ok b _ b.turn m hm
        have hpiece : b.squares m.fromSq = some (b.turn, PieceType.pawn) := by
          rw [hf]; exact hsq
        refine ⟨⟨PieceType.pawn, hpiece⟩, ?_, ?_, ?_, ?_⟩
        · rw [hf]; exact Ne.symm ht
        · intro h
          exact ⟨hpiece, hc2, hpe h⟩
        · intro h
          obtain ⟨hprn, hne1, hne2⟩ := hep h
          exact ⟨by rw [hf]; exact hne1, hne2, hc2, hprn⟩
        · intro h
          rw [hc2] at h
          exact absurd h (by simp)
      | knight =>
        obtain ⟨hf, hpr, hc2, he, ht⟩ := offsetMoves_ok b _ b.turn knightDeltas
          (by decide) m hm
        exact moveOk_of_simple b m PieceType.knight (by rw [hf]; exact hsq) hpr hc2 he
          (by rw [hf]; exact Ne.symm ht)
      | bishop =>
        obtain ⟨hf, hpr, hc2, he, ht⟩ := slidingMoves_ok b _ b.turn diagDirs
          (by decide) m hm
        exact moveOk_of_simple b m PieceType.bishop (by rw [hf]; exact hsq) hpr hc2 he
          (by rw [hf]; exact Ne.symm ht)
      | rook =>
        obtain ⟨hf, hpr, hc2, he, ht⟩ := slidingMoves_ok b _ b.turn orthDirs
          (by decide) m hm
        exact moveOk_of_simple b m PieceType.rook (by rw [hf]; exact hsq) hpr hc2 he
          (by rw [hf]; exact Ne.symm ht)
      | queen =>
        obtain ⟨hf, hpr, hc2, he, ht⟩ := slidingMoves_ok b _ b.turn (diagDirs ++ orthDirs)
          (by decide) m hm
        exact moveOk_of_simple b m PieceType.queen (by rw [hf]; exact hsq) hpr hc2 he
          (by rw [hf]; exact Ne.symm ht)
      | king =>
        obtain ⟨hf, hpr, hc2, he, ht⟩ := offsetMoves_ok b _ b.turn kingDeltas
          (by decide) m hm
        exact moveOk_of_simple b m PieceType.king (by rw [hf]; exact hsq) hpr hc2 he
          (by rw [hf]; exact Ne.symm ht)

/-- Every generated castling move satisfies the generator guarantees. -/
theorem castlingMoves_moveOk (b : Board) (m : Move) (hm : m ∈ castlingMoves b b.turn) :
    MoveOk b m := by
  obtain ⟨hk, hpr, he, hc, hne, hdisj⟩ := castlingMoves_ok b b.turn m hm
  refine ⟨⟨PieceType.king, hk⟩, hne, ?_, ?_, fun _ => ⟨hpr, he, hdisj⟩⟩
  · intro h
    rw [hpr] at h
    exact absurd h (by simp)
  · intro h
    rw [he] at h
    exact absurd h (by simp)

/-- The make/test/undo filter only selects moves from its input list. -/
theorem legalFilter_subset (c : Color) :
    ∀ (l : List Move) (b : Board) (m : Move), m ∈ legalFilter c b l → m ∈ l := by
  intro l
  induction l with
  | nil =>
    intro b m hm
    simp [legalFilter] at hm
  | cons m0 rest ih =>
    intro b m hm
    unfold legalFilter at hm
    dsimp only at hm
    by_cases hk : kingSafeAfter (makeMove b m0) c = true
    · rw [if_pos hk] at hm
      rcases List.mem_cons.mp hm with h | h
      · exact List.mem_cons.mpr (Or.inl h)
      · exact List.mem_cons.mpr (Or.inr (ih _ m h))
    · rw [if_neg hk] at hm
      exact List.mem_cons.mpr (Or.inr (ih _ m hm))

/-- Every move in the legal-move list satisfies the generator
guarantees. -/
theorem generateLegalMoves_moveOk (b : Board) (m : Move)
    (hm : m ∈ generateLegalMoves b) : MoveOk b m := by
  unfold generateLegalMoves at hm
  have hsub := legalFilter_subset b.turn _ b m hm
  rcases List.mem_append.mp hsub with h | h
  · exact pseudoLegal_ok b m h
  · exact castlingMoves_moveOk b m h

/-- The squares array of a castling move round-trips: moving king and
rook and then undoing both restores the array, provided the four squares
are pairwise distinct and the rook's target square was empty. -/
theorem castleSquaresRoundtrip (sq : Int → Option Piece) (p : Option Piece)
    (kf kt rf rt : Int) (h1 : kf ≠ kt) (h2 : kf ≠ rf) (h3 : kf ≠ rt)
    (h4 : kt ≠ rf) (h5 : kt ≠ rt) (h6 : rf ≠ rt)
    (hemp : sq rt = none) (hp : sq kf = p) :
    (let s2 := Function.update (Function.update sq kt p) kf none
     let s4 := Function.update (Function.update s2 rt (s2 rf)) rf none
     let t1 := Function.update (Function.update s4 kf (s4 kt)) kt (sq kt)
     Function.update (Function.update t1 rf (t1 rt)) rt none) = sq := by
  dsimp only
  funext x
  by_cases hx1 : x = rt
  · subst hx1
    simp [Function.update_apply, hemp, h1, h2, h3, h4, h5, h6, Ne.symm h1,
      Ne.symm h2, Ne.symm h3, Ne.symm h4, Ne.symm h5, Ne.symm h6]
  · by_cases hx2 : x = rf
    · subst hx2
      simp [Function.update_apply, h1, h2, h3, h4, h5, h6, Ne.symm h1,
        Ne.symm h2, Ne.symm h3, Ne.symm h4, Ne.symm h5, Ne.symm h6, hx1]
    · by_cases hx3 : x = kt
      · subst hx3
        simp [Function.update_apply, h1, h2, h3, h4, h5, h6, Ne.symm h1,
          Ne.symm h2, Ne.symm h3, Ne.symm h4, Ne.symm h5, Ne.symm h6, hx1, hx2]
      · by_cases hx4 : x = kf
        · subst hx4
          simp [Function.update_apply, h1, h2, h3, h4, h5, h6, Ne.symm h1,
            Ne.symm h2, Ne.symm h3, Ne.symm h4, Ne.symm h5, Ne.symm h6, hp,
            hx1, hx2, hx3]
        · simp [Function.update_apply, hx1, hx2, hx3, hx4]

/-- `undo_move` exactly reverses `make_move` for any move satisfying the
generator guarantees `MoveOk`: the entire board record — squares,
turn, castling rights, en-passant square, clocks and history — is
restored. -/
theorem undoMove_makeMove (b : Board) (m : Move) (h : MoveOk b m) :
    undoMove (makeMove b m) = b := by
  rcases m with ⟨mf, mt, mp, mc, me⟩
  obtain ⟨pt, hpiece⟩ := h.piece
  have hne : mf ≠ mt := h.ne
  have hne' : mt ≠ mf := Ne.symm hne
  cases mc with
  | true =>
    obtain ⟨hpr, hepc, hsq⟩ := h.castle rfl
    dsimp only at hpr hepc hsq
    subst hpr
    subst hepc
    rcases b with ⟨sq, tn, cr, epsq, hcl, fm, hist⟩
    dsimp only at hpiece
    rcases hsq with ⟨hfrom, hto, hemp⟩ | ⟨hfrom, hto, hemp⟩ | ⟨hfrom, hto, hemp⟩ |
      ⟨hfrom, hto, hemp⟩ <;>
      (subst hfrom
       subst hto
       unfold makeMove
       dsimp only
       rw [hpiece]
       unfold undoMove
       simp only [promoTruthy, Bool.false_eq_true, if_false, if_true, sqOf,
         Int.reduceMul, Int.reduceAdd, reduceIte, Board.mk.injEq]
       refine ⟨?_, by cases tn <;> rfl, trivial, trivial, trivial, trivial, trivial⟩
       refine castleSquaresRoundtrip sq (some (tn, pt)) _ _ _ _ ?_ ?_ ?_ ?_ ?_ ?_
         hemp hpiece
       all_goals decide)
  | false =>
    cases me with
    | true =>
      obtain ⟨hc1, hc2, _, hpr⟩ := h.ep rfl
      dsimp only at hc1 hc2 hpr
      subst hpr
      rcases b with ⟨sq, tn, cr, epsq, hcl, fm, hist⟩
      dsimp only at hpiece hc1 hc2
      have hc1' : mf ≠ epCapSqOf tn mt := Ne.symm hc1
      have hc2' : mt ≠ epCapSqOf tn mt := Ne.symm hc2
      unfold makeMove
      dsimp only
      rw [hpiece]
      unfold undoMove
      simp only [promoTruthy, Bool.false_eq_true, if_false, if_true,
        Board.mk.injEq]
      refine ⟨?_, by cases tn <;> rfl, trivial, trivial, trivial, trivial, trivial⟩
      funext x
      simp only [Function.update_apply]
      by_cases hx0 : x = epCapSqOf tn mt
      · subst hx0
        simp [hc1, hc2]
      · by_cases hx1 : x = mt
        · subst hx1
          simp [hne', hc2', hx0]
        · by_cases hx2 : x = mf
          · subst hx2
            simp [hne, hne', hc1', hc2', hpiece, hx0, hx1]
          · simp [hx0, hx1, hx2]
    | false =>
      rcases b with ⟨sq, tn, cr, epsq, hcl, fm, hist⟩
      dsimp only at hpiece
      cases mp with
      | none =>
        unfold makeMove
        dsimp only
        rw [hpiece]
        unfold undoMove
        simp only [promoTruthy, Bool.false_eq_true, if_false, Board.mk.injEq]
        refine ⟨?_, by cases tn <;> rfl, trivial, trivial, trivial, trivial, trivial⟩
        funext x
        simp only [Function.update_apply]
        by_cases hx1 : x = mt
        · subst hx1
          simp [hne']
        · by_cases hx2 : x = mf
          · subst hx2
            simp [hne, hne', hpiece]
          · simp [hx1, hx2]
      | some promo =>
        have hpawn := (h.promo rfl).1
        dsimp only at hpawn
        rw [hpiece] at hpawn
        have hptpawn : pt = PieceType.pawn := by
          injection hpawn with h1
          injection h1
        subst hptpawn
        unfold makeMove
        dsimp only
        rw [hpiece]
        unfold undoMove
        simp only [promoTruthy, Bool.false_eq_true, if_false, Board.mk.injEq]
        refine ⟨?_, by cases tn <;> rfl, trivial, trivial, trivial, trivial, trivial⟩
        funext x
        simp only [Function.update_apply]
        by_cases hx1 : x = mt
        · subst hx1
          simp [hne']
        · by_cases hx2 : x = mf
          · subst hx2
            by_cases hq : promo = PieceType.pawn <;>
              simp [hne, hne', hpiece, hq, Color.opp_opp]
          · simp [hx1, hx2]

/-- C2: for every board state and every move of its legal-move list,
`make_move` followed immediately by `undo_move` restores the squares
array, castling rights, en-passant square, halfmove clock, fullmove
number, turn and history exactly — the full board record round-trips,
including captured pieces, en-passant victims, and un-promotion. -/
theorem c2_make_undo_roundtrip (b : Board) (m : Move)
    (hm : m ∈ generateLegalMoves b) : undoMove (makeMove b m) = b :=
  undoMove_makeMove b m (generateLegalMoves_moveOk b m hm)

/-- Witness for C2: the roundtrip at the concrete position
`forcedMateBoard` and its legal move g6-g7. -/
theorem c2_make_undo_roundtrip_witness :
    undoMove (makeMove forcedMateBoard { fromSq := 22, toSq := 14 }) = forcedMateBoard :=
  c2_make_undo_roundtrip forcedMateBoard { fromSq := 22, toSq := 14 } (by decide)

/-- Every move kept by the make/test/undo filter passed its safety test
against the *original* board: the preceding iterations restored the board
exactly. -/
theorem legalFilter_safe (c : Color) :
    ∀ (l : List Move) (b : Board),
      (∀ m' ∈ l, undoMove (makeMove b m') = b) →
      ∀ m ∈ legalFilter c b l, kingSafeAfter (makeMove b m) c = true := by
  intro l
  induction l with
  | nil =>
    intro b _ m hm
    simp [legalFilter] at hm
  | cons m0 rest ih =>
    intro b hok m hm
    unfold legalFilter at hm
    dsimp only at hm
    rw [hok m0 (List.mem_cons_self m0 rest)] at hm
    by_cases hk : kingSafeAfter (makeMove b m0) c = true
    · rw [if_pos hk] at hm
      rcases List.mem_cons.mp hm with h | h
      · subst h
        exact hk
      · exact ih b (fun m' hm' => hok m' (List.mem_cons_of_mem m0 hm')) m h
    · rw [if_neg hk] at hm
      exact ih b (fun m' hm' => hok m' (List.mem_cons_of_mem m0 hm')) m hm

/-- C3: every move returned by `generate_legal_moves` leaves the mover's
own king (wherever `find_king` locates it after the move) unattacked by
the opposing side. -/
theorem c3_legal_moves_king_safe (b : Board) (m : Move)
    (hm : m ∈ generateLegalMoves b) (k : Int)
    (hk : findKing (makeMove b m) b.turn = some k) :
    isAttacked (makeMove b m) k b.turn.opp = false := by
  have hok : ∀ m' ∈ pseudoLegal b b.turn ++ castlingMoves b b.turn,
      undoMove (makeMove b m') = b := by
    intro m' hm'
    rcases List.mem_append.mp hm' with h | h
    · exact undoMove_makeMove b m' (pseudoLegal_ok b m' h)
    · exact undoMove_makeMove b m' (castlingMoves_moveOk b m' h)
  have hsafe := legalFilter_safe b.turn (pseudoLegal b b.turn ++ castlingMoves b b.turn)
    b hok m hm
  unfold kingSafeAfter at hsafe
  rw [hk] at hsafe
  simpa using hsafe

/-- Witness for C3: the mover's king on the concrete position
`forcedMateBoard` after its legal move g6-g7 is not attacked. -/
theorem c3_legal_moves_king_safe_witness :
    isAttacked (makeMove forcedMateBoard { fromSq := 22, toSq := 14 }) 23
      Color.white.opp = false :=
  c3_legal_moves_king_safe forcedMateBoard { fromSq := 22, toSq := 14 } (by decide) 23
    (by decide)

end Chess
